import Mathlib

/-!
Verification development for the DevAC v2.0 Python structural parser
(`packages/devac-core/src/parsers/python_parser.py`).

The Python source is shallowly embedded: the `DevACPythonParser` visitor
becomes a pure state-passing traversal over an embedded Python AST, and the
top-level `parse_python_file` / `main` entry points become total functions
over explicit IO/front-end outcomes.  External primitives that the engine
treats as black boxes (the CPython `ast` front end, `ast.unparse`,
`hashlib.sha256`, wall-clock time) are modelled by explicit parameters or by
deterministic stand-in functions; the engine relies only on their determinism.
-/

set_option maxHeartbeats 1000000

/-- Source location carried by every embedded AST node, mirroring the
`lineno` / `end_lineno` / `col_offset` / `end_col_offset` attributes that
`DevACPythonParser._get_location` reads (the embedded nodes always carry
them, so the `getattr` defaults never fire). -/
structure Loc where
  lineno : Nat
  end_lineno : Nat
  col_offset : Nat
  end_col_offset : Nat
deriving DecidableEq, Repr

/-- The zero location, used for compact concrete test inputs. -/
def Loc.z : Loc := ⟨0, 0, 0, 0⟩

/-- The CLI configuration record (`repoName`, `packagePath`, `branch`). -/
structure Config where
  repoName : String
  packagePath : String
  branch : String
deriving DecidableEq, Repr

/-- The per-invocation parser configuration stored on `DevACPythonParser`
in `__init__`: the backslash-normalized file path and the namespace parts. -/
structure ParserCfg where
  filepath : String
  repo_name : String
  package_path : String
deriving DecidableEq, Repr

/-- Values stored inside the nested `properties` dict: the engine only ever
puts a boolean flag (`is_class_method`) or a list of decorator strings there. -/
inductive PDictVal where
  | db (b : Bool)
  | dlist (l : List String)
deriving DecidableEq, Repr

/-- Values in the free-form property bag (`**extra_props` entries of
`_add_node` / `_add_edge`): booleans, strings, numbers, string lists,
the nested `properties` dict, and Python `None`. -/
inductive PVal where
  | pb (b : Bool)
  | ps (s : String)
  | pnat (n : Nat)
  | plist (l : List String)
  | pdict (d : List (String × PDictVal))
  | pnone
deriving DecidableEq, Repr

/-- One emitted node record (`node_data` in `_add_node`). -/
structure NodeData where
  entity_id : String
  kind : String
  name : String
  qualified_name : String
  file_path : String
  start_line : Nat
  end_line : Nat
  start_column : Nat
  end_column : Nat
  language : String
  is_exported : Bool
  extra : List (String × PVal)
  documentation : Option String
deriving DecidableEq, Repr

/-- One emitted edge record (`edge_data` in `_add_edge`). -/
structure EdgeData where
  edge_id : String
  edge_type : String
  source_entity_id : String
  target_entity_id : String
  source_file_path : String
  extra : List (String × PVal)
deriving DecidableEq, Repr

/-- One emitted external reference record (`ref_data` in `_add_external_ref`). -/
structure ExternalRef where
  source_entity_id : String
  source_file_path : String
  module_specifier : String
  imported_symbol : String
  is_type_only : Bool
  is_relative : Bool
  local_name : Option String
deriving DecidableEq, Repr

/-- Ghost record of one node-creation event: the created entity id and kind
together with the enclosing class/function context at the moment
`_add_node` ran.  This field is specification-only instrumentation: it is
appended exactly once per created node and is never read by the engine. -/
structure CreationEntry where
  entity_id : String
  kind : String
  class_ctx : Option String
  fn_ctx : Option String
deriving DecidableEq, Repr

/-- The mutable visitor state of `DevACPythonParser` (`self.nodes`,
`self.edges`, `self.external_refs`, `self.warnings`, the scope stack and the
current class/function context), plus the ghost `creation_log`. -/
structure ParserState where
  nodes : List NodeData
  edges : List EdgeData
  external_refs : List ExternalRef
  warnings : List String
  scope_stack : List String
  current_class_name : Option String
  current_class_entity_id : Option String
  current_function_entity_id : Option String
  creation_log : List CreationEntry
deriving DecidableEq, Repr

/-- Models the external digest primitive `hashlib.sha256(...).hexdigest()`.
The engine treats the digest as an out-of-scope black box and relies only on
it being a fixed deterministic function from the input string to a hex
string, which this computable stand-in provides. -/
def sha256Hex (s : String) : String :=
  let h := s.data.foldl (fun a c => (a * 131 + c.toNat + 17) % (2 ^ 64)) 5381
  let ds := Nat.toDigits 16 h
  String.mk (ds.reverse ++ List.replicate (64 - ds.length) '0')

/-- `DevACPythonParser._generate_scope_hash`: first 12 hex characters of the
digest of the scoped name. -/
def generateScopeHash (scoped_name : String) : String :=
  String.mk ((sha256Hex scoped_name).data.take 12)

/-- `DevACPythonParser._generate_entity_id`: `{repo}:{pkg}:{kind}:{hash}`. -/
def generateEntityId (p : ParserCfg) (kind scoped_name : String) : String :=
  p.repo_name ++ ":" ++ p.package_path ++ ":" ++ kind ++ ":" ++ generateScopeHash scoped_name

/-- Python `sep.join(l)` on a list of strings. -/
def strJoin (sep : String) : List String → String
  | [] => ""
  | [x] => x
  | x :: y :: xs => x ++ sep ++ strJoin sep (y :: xs)

/-- `DevACPythonParser._get_scoped_name`: dot-join the scope stack plus the
name, or the bare name when the stack is empty.  (`_get_qualified_name`
returns the same value.) -/
def getScopedName (scope_stack : List String) (name : String) : String :=
  if scope_stack ≠ [] then strJoin "." (scope_stack ++ [name]) else name

/-- Models `os.path.basename` on the (already `/`-normalized) file path:
the part after the last `/`. -/
def basename (s : String) : String :=
  String.mk (s.data.foldl (fun acc c => if c = '/' then [] else acc ++ [c]) [])

/-- `filepath.replace(&quot;\\&quot;, &quot;/&quot;)` from `__init__` (written
char-by-char; Python's replace of a one-char pattern by a one-char
replacement is exactly this map). -/
def replaceBackslash (s : String) : String :=
  String.mk (s.data.map (fun c => if c = '\\' then '/' else c))

/-- Models Python `str.isupper` for ASCII identifier names: at least one
cased character and no lowercase character. -/
def pyIsUpper (s : String) : Bool :=
  (s.data.any (fun c => c.isAlpha)) && (s.data.all (fun c => !c.isLower))

/-- Python string truthiness fallback `a or b`. -/
def pyOr (a b : String) : String := if a ≠ "" then a else b

/-- The synthesized module-level entity id used for file-level imports and
module-level calls: `_generate_entity_id("module", basename(filepath))`. -/
def moduleEntityId (p : ParserCfg) : String :=
  generateEntityId p "module" (basename p.filepath)

/-- The `edge_data` record built by `_add_edge`, with the deterministic
`edge_id` concatenation `{type}:{source}:{target}`. -/
def mkEdge (p : ParserCfg) (edge_type source_entity_id target_entity_id : String)
    (extra : List (String × PVal)) : EdgeData :=
  { edge_id := edge_type ++ ":" ++ source_entity_id ++ ":" ++ target_entity_id,
    edge_type := edge_type,
    source_entity_id := source_entity_id, target_entity_id := target_entity_id,
    source_file_path := p.filepath, extra := extra }

/-- `DevACPythonParser._add_edge`. -/
def addEdge (p : ParserCfg) (st : ParserState) (edge_type source_entity_id target_entity_id : String)
    (extra : List (String × PVal)) : ParserState :=
  { st with edges := st.edges ++ [mkEdge p edge_type source_entity_id target_entity_id extra] }

/-- `DevACPythonParser._add_external_ref`.  The `local_name` key is present
only when the alias is truthy and differs from the imported symbol. -/
def addExternalRef (p : ParserCfg) (st : ParserState)
    (module_specifier imported_symbol source_entity_id : String)
    (local_name : Option String) : ParserState :=
  let ln := local_name.getD ""
  { st with external_refs := st.external_refs ++
      [{ source_entity_id := source_entity_id, source_file_path := p.filepath,
         module_specifier := module_specifier, imported_symbol := imported_symbol,
         is_type_only := false,
         is_relative := (module_specifier.data.take 1 = ['.']),
         local_name := if ln ≠ "" && ln ≠ imported_symbol then some ln else none }] }

/-- `DevACPythonParser._add_node`.  The caller passes the location and the
already-extracted docstring of the underlying AST node (the Python method
computes them from the node itself); `documentation` is added only when the
docstring is truthy, and a CONTAINS edge is added only when
`parent_entity_id` is truthy.  Returns the entity id and the new state. -/
def addNode (p : ParserCfg) (st : ParserState) (kind name : String) (loc : Loc)
    (docstring : Option String) (parent_entity_id : Option String)
    (extra : List (String × PVal)) : String × ParserState :=
  let scoped_name := getScopedName st.scope_stack name
  let entity_id := generateEntityId p kind scoped_name
  let qualified_name := getScopedName st.scope_stack name
  let nd : NodeData :=
    { entity_id := entity_id, kind := kind, name := name,
      qualified_name := qualified_name, file_path := p.filepath,
      start_line := loc.lineno, end_line := loc.end_lineno,
      start_column := loc.col_offset, end_column := loc.end_col_offset,
      language := "python", is_exported := true, extra := extra,
      documentation := if (docstring.getD "") ≠ "" then docstring else none }
  let st1 := { st with
    nodes := st.nodes ++ [nd],
    creation_log := st.creation_log ++
      [{ entity_id := entity_id, kind := kind,
         class_ctx := st.current_class_entity_id,
         fn_ctx := st.current_function_entity_id }] }
  let st2 :=
    if (parent_entity_id.getD "") ≠ "" then
      addEdge p st1 "CONTAINS" (parent_entity_id.getD "") entity_id []
    else st1
  (entity_id, st2)

mutual
/-- Embedded Python expressions: the subset of `ast.expr` shapes the parser
dispatches on (`Name`, `Attribute`, `Call`, `Subscript`, `Constant`,
`Yield` / `YieldFrom`); every other shape only matters through its children. -/
inductive Expr where
  | name (id : String) (loc : Loc)
  | attrAccess (value : Expr) (attr : String) (loc : Loc)
  | call (func : Expr) (args : ExprList) (keywords : KeywordList) (loc : Loc)
  | subscript (value : Expr) (slice : Expr) (loc : Loc)
  | constantStr (s : String) (loc : Loc)
  | constantNone (loc : Loc)
  | yield0 (loc : Loc)
  | yield1 (value : Expr) (loc : Loc)
  | yieldFrom (value : Expr) (loc : Loc)
/-- A list of expressions (spelled as a mutual inductive so that the
traversal is compiled by structural recursion and evaluates by `decide`). -/
inductive ExprList where
  | nil
  | cons (e : Expr) (rest : ExprList)
/-- A list of `ast.keyword` nodes: optional argument name plus value. -/
inductive KeywordList where
  | nil
  | cons (arg : Option String) (value : Expr) (rest : KeywordList)
end

/-- Length of a keyword list (`len(node.keywords)`). -/
def KeywordList.len : KeywordList → Nat
  | .nil => 0
  | .cons _ _ rest => 1 + rest.len

/-- Number of positional arguments (`len(node.args)`). -/
def ExprList.len : ExprList → Nat
  | .nil => 0
  | .cons _ rest => 1 + rest.len

mutual
/-- Models `ast.unparse` on the embedded expression subset (an external
front-end facility; only its determinism and its behaviour on bare names
and dotted attribute chains matter to the engine). -/
def unparse : Expr → String
  | .name id _ => id
  | .attrAccess v a _ => unparse v ++ "." ++ a
  | .call f args kws _ =>
      unparse f ++ "(" ++ strJoin ", " (unparseList args ++ unparseKws kws) ++ ")"
  | .subscript v sl _ => unparse v ++ "[" ++ unparse sl ++ "]"
  | .constantStr s _ => "\x27" ++ s ++ "\x27"
  | .constantNone _ => "None"
  | .yield0 _ => "yield"
  | .yield1 v _ => "yield " ++ unparse v
  | .yieldFrom v _ => "yield from " ++ unparse v
/-- `ast.unparse` rendering of each element of an argument list. -/
def unparseList : ExprList → List String
  | .nil => []
  | .cons e rest => unparse e :: unparseList rest
/-- `ast.unparse` rendering of each keyword argument. -/
def unparseKws : KeywordList → List String
  | .nil => []
  | .cons a v rest =>
      (match a with
       | some nm => nm ++ "=" ++ unparse v
       | none => "**" ++ unparse v) :: unparseKws rest
end

mutual
/-- Does this expression subtree contain a yield-style node
(`ast.Yield` / `ast.YieldFrom`)?  Used by `_is_generator`, which calls
`ast.walk` over the whole function subtree. -/
def exprHasYield : Expr → Bool
  | .name _ _ => false
  | .attrAccess v _ _ => exprHasYield v
  | .call f args kws _ => exprHasYield f || exprListHasYield args || kwsHaveYield kws
  | .subscript v sl _ => exprHasYield v || exprHasYield sl
  | .constantStr _ _ => false
  | .constantNone _ => false
  | .yield0 _ => true
  | .yield1 _ _ => true
  | .yieldFrom _ _ => true
/-- Yield scan over an expression list. -/
def exprListHasYield : ExprList → Bool
  | .nil => false
  | .cons e rest => exprHasYield e || exprListHasYield rest
/-- Yield scan over keyword arguments. -/
def kwsHaveYield : KeywordList → Bool
  | .nil => false
  | .cons _ v rest => exprHasYield v || kwsHaveYield rest
end

/-- `DevACPythonParser._extract_object_name`: resolve the object part of an
attribute chain.  A `Name` yields its identifier; a nested `Attribute`
joins recursively, falling back to the bare attribute when the inner chain
is non-resolvable; a `Call` (and anything else) yields no name. -/
def extractObjectName : Expr → Option String
  | .name id _ => some id
  | .attrAccess v a _ =>
      match extractObjectName v with
      | some o => if o ≠ "" then some (o ++ "." ++ a) else some a
      | none => some a
  | _ => none

/-- `DevACPythonParser._extract_callee_name`: `Name` yields itself;
`Attribute` yields `object.attr` via `_extract_object_name`, falling back
to the bare attribute name when the object is non-resolvable; a direct
`Call` func yields nothing; a `Subscript` resolves through its base. -/
def extractCalleeName : Expr → Option String
  | .name id _ => some id
  | .attrAccess v a _ =>
      match extractObjectName v with
      | some o => if o ≠ "" then some (o ++ "." ++ a) else some a
      | none => some a
  | .call _ _ _ _ => none
  | .subscript v _ _ => extractCalleeName v
  | _ => none

/-- The edge-emitting first half of `visit_Call` (everything before its
final `generic_visit`): pick the caller entity (current function or the
synthesized module entity), extract the callee name, and when it is truthy
add a CALLS edge to the `unresolved:`-tagged target. -/
def visitCallEdgeStep (p : ParserCfg) (st : ParserState) (func : Expr)
    (args : ExprList) (kws : KeywordList) (loc : Loc) : ParserState :=
  let source0 := st.current_function_entity_id.getD ""
  let source_entity_id := if source0 = "" then moduleEntityId p else source0
  let callee := (extractCalleeName func).getD ""
  if callee ≠ "" then
    addEdge p st "CALLS" source_entity_id ("unresolved:" ++ callee)
      [("callee", .ps callee),
       ("argument_count", .pnat (args.len + kws.len)),
       ("start_line", .pnat loc.lineno),
       ("start_column", .pnat loc.col_offset)]
  else st

mutual
/-- Expression traversal of the `ast.NodeVisitor`: `Call` nodes hit
`visit_Call` (edge emission followed by `generic_visit` over func, args and
keywords, in AST field order); every other expression kind has no `visit_`
method and falls back to `generic_visit` over its children. -/
def visitExpr (p : ParserCfg) (st : ParserState) : Expr → ParserState
  | .call f args kws loc =>
      let st1 := visitCallEdgeStep p st f args kws loc
      let st2 := visitExpr p st1 f
      let st3 := visitExprList p st2 args
      visitKeywordList p st3 kws
  | .attrAccess v _ _ => visitExpr p st v
  | .subscript v sl _ =>
      let st1 := visitExpr p st v
      visitExpr p st1 sl
  | .name _ _ => st
  | .constantStr _ _ => st
  | .constantNone _ => st
  | .yield0 _ => st
  | .yield1 v _ => visitExpr p st v
  | .yieldFrom v _ => visitExpr p st v
/-- `generic_visit` over a list of child expressions, left to right. -/
def visitExprList (p : ParserCfg) (st : ParserState) : ExprList → ParserState
  | .nil => st
  | .cons e rest =>
      let st1 := visitExpr p st e
      visitExprList p st1 rest
/-- `generic_visit` over keyword nodes: each visits its value expression. -/
def visitKeywordList (p : ParserCfg) (st : ParserState) : KeywordList → ParserState
  | .nil => st
  | .cons _ v rest =>
      let st1 := visitExpr p st v
      visitKeywordList p st1 rest
end

/-- Traversal over a plain `List` of child expressions (used for statement
fields such as base classes or decorator lists). -/
def visitExprs (p : ParserCfg) (st : ParserState) (es : List Expr) : ParserState :=
  es.foldl (visitExpr p) st

/-- Traversal over an optional child expression (absent children are not
AST nodes and are skipped by `generic_visit`). -/
def visitOptExpr (p : ParserCfg) (st : ParserState) : Option Expr → ParserState
  | some e => visitExpr p st e
  | none => st

/-- One `ast.arg` node: parameter name, optional annotation, location. -/
structure Arg where
  arg : String
  ann : Option Expr
  loc : Loc

/-- The `ast.arguments` node.  The parser's `_process_function_args` reads
`args`, `vararg`, `kwonlyargs` and `kwarg`; `posonlyargs`, `kw_defaults` and
`defaults` exist on the node but are only reached by `generic_visit`. -/
structure Arguments where
  posonlyargs : List Arg
  args : List Arg
  vararg : Option Arg
  kwonlyargs : List Arg
  kw_defaults : List (Option Expr)
  kwarg : Option Arg
  defaults : List Expr

/-- The `all_args` list built by `_process_function_args`: positional args
with every `self` / `cls` name skipped, then `*args`, then keyword-only
args, then `**kwargs`.  (Positional-only parameters are never consulted.) -/
def allArgsList (args : Arguments) : List Arg :=
  (args.args.filter (fun a => !(a.arg == "self" || a.arg == "cls")))
    ++ (match args.vararg with | some v => [v] | none => [])
    ++ args.kwonlyargs
    ++ (match args.kwarg with | some k => [k] | none => [])

/-- `DevACPythonParser._process_function_args`: each collected argument
becomes a `parameter` node (with a `type_annotation` extra property, `None`
when unannotated, and no parent) plus a PARAMETER_OF edge from the
parameter to the owning function. -/
def processFunctionArgs (p : ParserCfg) (st : ParserState) (args : Arguments)
    (func_entity_id : String) : ParserState :=
  (allArgsList args).foldl
    (fun st a =>
      let type_ann := a.ann.map unparse
      let r := addNode p st "parameter" a.arg a.loc none none
        [("type_annotation", match type_ann with | some t => .ps t | none => .pnone)]
      addEdge p r.2 "PARAMETER_OF" r.1 func_entity_id [])
    st

/-- `generic_visit` on one `ast.arg` child: visits its annotation. -/
def visitArg (p : ParserCfg) (st : ParserState) (a : Arg) : ParserState :=
  visitOptExpr p st (Arg.ann a)

/-- `generic_visit` over a list of `ast.arg` children. -/
def visitArgList (p : ParserCfg) (st : ParserState) (l : List Arg) : ParserState :=
  l.foldl (visitArg p) st

/-- `generic_visit` over optional default expressions (`kw_defaults` holds
`None` entries for keyword-only args without defaults, which are skipped). -/
def visitOptExprList (p : ParserCfg) (st : ParserState) (l : List (Option Expr)) : ParserState :=
  l.foldl (visitOptExpr p) st

/-- `generic_visit` reaching the children of the `ast.arguments` node, in
AST field order: posonlyargs, args, vararg, kwonlyargs, kw_defaults, kwarg,
defaults. -/
def visitArgumentsChildren (p : ParserCfg) (st : ParserState) (args : Arguments) : ParserState :=
  let st1 := visitArgList p st args.posonlyargs
  let st2 := visitArgList p st1 args.args
  let st3 := match args.vararg with | some v => visitArg p st2 v | none => st2
  let st4 := visitArgList p st3 args.kwonlyargs
  let st5 := visitOptExprList p st4 args.kw_defaults
  let st6 := match args.kwarg with | some k => visitArg p st5 k | none => st5
  visitExprs p st6 args.defaults

/-- Yield scan over one `ast.arg` (its annotation subtree). -/
def argHasYield (a : Arg) : Bool :=
  match Arg.ann a with
  | some e => exprHasYield e
  | none => false

/-- Yield scan over the `ast.arguments` subtree (`ast.walk` reaches it). -/
def argumentsHaveYield (args : Arguments) : Bool :=
  args.posonlyargs.any argHasYield || args.args.any argHasYield ||
  (match args.vararg with | some v => argHasYield v | none => false) ||
  args.kwonlyargs.any argHasYield ||
  args.kw_defaults.any (fun o => match o with | some e => exprHasYield e | none => false) ||
  (match args.kwarg with | some k => argHasYield k | none => false) ||
  args.defaults.any exprHasYield

/-- One `ast.alias` in an import statement: name and optional `as` alias. -/
structure Alias where
  name : String
  asname : Option String

mutual
/-- Embedded Python statements: the kinds the visitor dispatches on
(`ClassDef`, `FunctionDef` / `AsyncFunctionDef`, `Import`, `ImportFrom`,
`Assign`, `AnnAssign`), plus representative unhandled kinds (expression
statements, `Return`, `If`, `Pass`) that only recurse via `generic_visit`. -/
inductive Stmt where
  | classDef (name : String) (bases : List Expr) (keywords : KeywordList)
      (body : StmtList) (decorator_list : List Expr) (loc : Loc)
  | functionDef (is_async : Bool) (name : String) (args : Arguments)
      (body : StmtList) (decorator_list : List Expr) (returns : Option Expr) (loc : Loc)
  | importStmt (names : List Alias) (loc : Loc)
  | importFrom (module : Option String) (names : List Alias) (level : Nat) (loc : Loc)
  | assign (targets : List Expr) (value : Expr) (loc : Loc)
  | annAssign (target : Expr) (ann : Expr) (value : Option Expr) (loc : Loc)
  | exprStmt (value : Expr) (loc : Loc)
  | ret (value : Option Expr) (loc : Loc)
  | ifStmt (cond : Expr) (body : StmtList) (orelse : StmtList) (loc : Loc)
  | passStmt (loc : Loc)
/-- A list of statements (mutual so traversal is structural). -/
inductive StmtList where
  | nil
  | cons (s : Stmt) (rest : StmtList)
end

/-- `ast.Module`: a file is its statement list. -/
structure PyModule where
  body : StmtList

mutual
/-- Yield scan over one statement subtree: `ast.walk` descends into every
child, including nested function bodies (the source of the spec's open
question about nested generators). -/
def stmtHasYield : Stmt → Bool
  | .classDef _ bases kws body decs _ =>
      bases.any exprHasYield || kwsHaveYield kws || stmtListHasYield body || decs.any exprHasYield
  | .functionDef _ _ args body decs returns _ =>
      argumentsHaveYield args || stmtListHasYield body || decs.any exprHasYield ||
      (match returns with | some r => exprHasYield r | none => false)
  | .importStmt _ _ => false
  | .importFrom _ _ _ _ => false
  | .assign targets value _ => targets.any exprHasYield || exprHasYield value
  | .annAssign target ann value _ =>
      exprHasYield target || exprHasYield ann ||
      (match value with | some v => exprHasYield v | none => false)
  | .exprStmt v _ => exprHasYield v
  | .ret v _ => (match v with | some e => exprHasYield e | none => false)
  | .ifStmt c body orelse _ => exprHasYield c || stmtListHasYield body || stmtListHasYield orelse
  | .passStmt _ => false
/-- Yield scan over a statement list. -/
def stmtListHasYield : StmtList → Bool
  | .nil => false
  | .cons s rest => stmtHasYield s || stmtListHasYield rest
end

/-- `DevACPythonParser._is_generator`: `ast.walk` over the whole
function-definition subtree looking for `Yield` / `YieldFrom`. -/
def isGeneratorFn (args : Arguments) (body : StmtList) (decorator_list : List Expr)
    (returns : Option Expr) : Bool :=
  argumentsHaveYield args || stmtListHasYield body || decorator_list.any exprHasYield ||
  (match returns with | some r => exprHasYield r | none => false)

/-- `DevACPythonParser._has_decorator`: a bare `Name` with the given id, or
an `Attribute` whose final attribute matches. -/
def hasDecorator (decorator_list : List Expr) (nm : String) : Bool :=
  decorator_list.any (fun d =>
    match d with
    | .name id _ => id == nm
    | .attrAccess _ a _ => a == nm
    | _ => false)

/-- `DevACPythonParser._get_docstring`: the body's first statement is an
expression statement holding a string constant. -/
def getDocstring : StmtList → Option String
  | .cons (.exprStmt (.constantStr s _) _) _ => some s
  | _ => none

/-- The `extra_props` dict built in `_visit_function`, in insertion order,
including the merge of decorator names into an existing `properties` dict
when the function is a classmethod. -/
def buildFnExtra (is_async is_static is_classmethod is_property is_generator : Bool)
    (return_type : Option String) (decorators : List String) : List (String × PVal) :=
  let e : List (String × PVal) := []
  let e := if is_async then e ++ [("is_async", .pb true)] else e
  let e := if is_static then e ++ [("is_static", .pb true)] else e
  let e := if is_classmethod then e ++ [("properties", .pdict [("is_class_method", .db true)])] else e
  let e := if is_property then e ++ [("is_property", .pb true)] else e
  let e := if is_generator then e ++ [("is_generator", .pb true)] else e
  let e := if (return_type.getD "") ≠ "" then e ++ [("return_type", .ps (return_type.getD ""))] else e
  if decorators ≠ [] then
    if e.any (fun kv => kv.1 == "properties") then
      e.map (fun kv =>
        if kv.1 == "properties" then
          (kv.1, match kv.2 with
                 | .pdict d => .pdict (d ++ [("decorators", .dlist decorators)])
                 | v => v)
        else kv)
    else e ++ [("properties", .pdict [("decorators", .dlist decorators)])]
  else e

/-- The import-source entity: the current function, else the current class,
else (when both are absent) the synthesized module entity.  Shared by
`visit_Import` and `visit_ImportFrom`. -/
def importSourceEntity (p : ParserCfg) (st : ParserState) : String :=
  let s := pyOr (st.current_function_entity_id.getD "")
             (pyOr (st.current_class_entity_id.getD "") "")
  if s = "" then moduleEntityId p else s

/-- The module specifier built by `visit_ImportFrom`: `node.level` leading
dots prefixed to the (possibly empty) module name. -/
def importFromModule (module : Option String) (level : Nat) : String :=
  let m := module.getD ""
  if level > 0 then
    let dots := String.mk (List.replicate level '.')
    if m ≠ "" then dots ++ m else dots
  else m

/-- The `isinstance(node.target, ast.Name)` test of `visit_AnnAssign`,
combined with the `.id` access on success. -/
def exprNameId : Expr → Option String
  | .name id _ => some id
  | _ => none

/-- The type-alias heuristic of `visit_AnnAssign`: the assigned value is a
bare reference to one of a fixed set of primitive type names. -/
def annValueIsTypeAlias : Option Expr → Bool
  | some (.name vid _) =>
      ["str", "int", "float", "bool", "bytes", "list", "dict", "set", "tuple"].contains vid
  | _ => false

mutual
/-- Statement traversal of the `ast.NodeVisitor`: dispatch on the statement
kind exactly as the `visit_*` methods do, with `generic_visit` recursing
into children (in AST field order) for unhandled kinds and at the points
where the handled methods call it. -/
def visitStmt (p : ParserCfg) (st : ParserState) : Stmt → ParserState
  | .classDef name bases kws body decs loc =>
      -- visit_ClassDef
      let prev_class_name := st.current_class_name
      let prev_class_entity_id := st.current_class_entity_id
      let decorators := decs.map unparse
      let r := addNode p st "class" name loc (getDocstring body)
        st.current_class_entity_id
        [("properties", if decorators ≠ [] then .pdict [("decorators", .dlist decorators)] else .pdict [])]
      let entity_id := r.1
      let st1 := bases.foldl
        (fun st base =>
          let base_name := unparse base
          let base_entity_id := generateEntityId p "class" base_name
          addEdge p st "EXTENDS" entity_id base_entity_id [("target_name", .ps base_name)])
        r.2
      let st2 := { st1 with
        current_class_name := some name,
        current_class_entity_id := some entity_id,
        scope_stack := st1.scope_stack ++ [name] }
      -- generic_visit: bases, keywords, body, decorator_list
      let st3 := visitExprs p st2 bases
      let st4 := visitKeywordList p st3 kws
      let st5 := visitStmtList p st4 body
      let st6 := visitExprs p st5 decs
      { st6 with
        scope_stack := st6.scope_stack.dropLast,
        current_class_name := prev_class_name,
        current_class_entity_id := prev_class_entity_id }
  | .functionDef is_async name args body decs returns loc =>
      -- visit_FunctionDef / visit_AsyncFunctionDef -> _visit_function
      let is_method := st.current_class_entity_id.isSome
      let kind := if is_method then "method" else "function"
      let is_static := hasDecorator decs "staticmethod"
      let is_classmethod := hasDecorator decs "classmethod"
      let is_property := hasDecorator decs "property"
      let is_generator := isGeneratorFn args body decs returns
      let return_type := returns.map unparse
      let decorators := decs.map unparse
      let extra := buildFnExtra is_async is_static is_classmethod is_property
        is_generator return_type decorators
      let parent_id := if is_method then st.current_class_entity_id else none
      let r := addNode p st kind name loc (getDocstring body) parent_id extra
      let entity_id := r.1
      let prev_function_entity_id := st.current_function_entity_id
      let st1 := { r.2 with
        current_function_entity_id := some entity_id,
        scope_stack := r.2.scope_stack ++ [name] }
      let st2 := processFunctionArgs p st1 args entity_id
      -- generic_visit: args, body, decorator_list, returns
      let st3 := visitArgumentsChildren p st2 args
      let st4 := visitStmtList p st3 body
      let st5 := visitExprs p st4 decs
      let st6 := visitOptExpr p st5 returns
      { st6 with
        scope_stack := st6.scope_stack.dropLast,
        current_function_entity_id := prev_function_entity_id }
  | .importStmt names _ =>
      -- visit_Import (no generic_visit)
      let source_entity_id := importSourceEntity p st
      names.foldl (fun st al => addExternalRef p st al.name "*" source_entity_id al.asname) st
  | .importFrom module names level _ =>
      -- visit_ImportFrom (no generic_visit)
      let source_entity_id := importSourceEntity p st
      let m := importFromModule module level
      names.foldl (fun st al => addExternalRef p st m al.name source_entity_id al.asname) st
  | .assign targets value loc =>
      -- visit_Assign: module/class-level Name targets become nodes
      let st1 :=
        if st.current_function_entity_id = none then
          targets.foldl
            (fun st t =>
              match t with
              | .name id _ =>
                  let kind := if pyIsUpper id then "constant" else "variable"
                  (addNode p st kind id loc none st.current_class_entity_id []).2
              | _ => st)
            st
        else st
      -- generic_visit: targets, value
      let st2 := visitExprs p st1 targets
      visitExpr p st2 value
  | .annAssign target ann value loc =>
      -- visit_AnnAssign (guard: no function context and a Name target)
      let st1 :=
        match exprNameId target with
        | some id =>
            if st.current_function_entity_id = none then
              let type_ann := unparse ann
              let is_type_alias := annValueIsTypeAlias value
              let kind :=
                if is_type_alias then "type"
                else if pyIsUpper id then "constant" else "variable"
              (addNode p st kind id loc none st.current_class_entity_id
                [("type_annotation", .ps type_ann)]).2
            else st
        | none => st
      -- generic_visit: target, annotation, value
      let st2 := visitExpr p st1 target
      let st3 := visitExpr p st2 ann
      visitOptExpr p st3 value
  | .exprStmt v _ => visitExpr p st v
  | .ret v _ => visitOptExpr p st v
  | .ifStmt c body orelse _ =>
      let st1 := visitExpr p st c
      let st2 := visitStmtList p st1 body
      visitStmtList p st2 orelse
  | .passStmt _ => st
/-- `generic_visit` over a statement list, left to right. -/
def visitStmtList (p : ParserCfg) (st : ParserState) : StmtList → ParserState
  | .nil => st
  | .cons s rest =>
      let st1 := visitStmt p st s
      visitStmtList p st1 rest
end

/-- The freshly-initialized visitor state from `__init__`. -/
def initState : ParserState :=
  { nodes := [], edges := [], external_refs := [], warnings := [],
    scope_stack := [], current_class_name := none,
    current_class_entity_id := none, current_function_entity_id := none,
    creation_log := [] }

/-- Configuration as `__init__` derives it from the file path and config. -/
def mkCfg (filepath : String) (config : Config) : ParserCfg :=
  { filepath := replaceBackslash filepath,
    repo_name := config.repoName, package_path := config.packagePath }

/-- One full traversal: `DevACPythonParser(filepath, source, config)`
followed by `parser.visit(tree)` (`visit_Module` just recurses into the
module body). -/
def runVisitor (filepath : String) (config : Config) (m : PyModule) : ParserState :=
  visitStmtList (mkCfg filepath config) initState m.body

/-- Outcome of the `open(...).read()` step, which the aggregator treats as
an external effect: the decoded character stream on success, or the two
exception classes `parse_python_file` catches. -/
inductive ReadResult where
  | ok (raw : List Char)
  | fileNotFound
  | otherError (msg : String)

/-- Outcome of the external front-end `ast.parse`: a tree or a syntax
error message. -/
inductive ParseOutcome where
  | tree (m : PyModule)
  | syntaxError (msg : String)

/-- The aggregate result dict returned by `parse_python_file`
(`error = none` models the absence of the top-level `"error"` key). -/
structure ParseResult where
  error : Option String
  nodes : List NodeData
  edges : List EdgeData
  externalRefs : List ExternalRef
  sourceFileHash : String
  filePath : String
  parseTimeMs : Nat
  warnings : List String

/-- Universal-newline translation performed by text-mode `open(...)` with
the default `newline=None`: `\r\n` and lone `\r` both become `\n`. -/
def universalNewlines : List Char → List Char
  | [] => []
  | '\r' :: '\n' :: rest => '\n' :: universalNewlines rest
  | '\r' :: rest => '\n' :: universalNewlines rest
  | c :: rest => c :: universalNewlines rest

/-- The string produced by `f.read()` in text mode from the raw decoded
character stream. -/
def textRead (raw : List Char) : String := String.mk (universalNewlines raw)

/-- `parse_python_file`.  The external effects appear as parameters: the
read outcome, the front-end `ast.parse` function, and the elapsed
wall-clock milliseconds that `(time.time() - start_time) * 1000` would
measure.  Both IO-failure branches return the literal `"parseTimeMs": 0`
from the source. -/
def parsePythonFile (filepath : String) (config : Config) (read : ReadResult)
    (astParse : String → ParseOutcome) (elapsedMs : Nat) : ParseResult :=
  match read with
  | .fileNotFound =>
      { error := some ("File not found: " ++ filepath),
        nodes := [], edges := [], externalRefs := [],
        sourceFileHash := "", filePath := filepath, parseTimeMs := 0,
        warnings := ["File not found: " ++ filepath] }
  | .otherError e =>
      { error := some ("Error reading file: " ++ e),
        nodes := [], edges := [], externalRefs := [],
        sourceFileHash := "", filePath := filepath, parseTimeMs := 0,
        warnings := ["Error reading file: " ++ e] }
  | .ok raw =>
      let source := textRead raw
      let source_hash := sha256Hex source
      match astParse source with
      | .syntaxError e =>
          { error := none, nodes := [], edges := [], externalRefs := [],
            sourceFileHash := source_hash, filePath := filepath,
            parseTimeMs := elapsedMs,
            warnings := ["Syntax error: " ++ e] }
      | .tree m =>
          let st := runVisitor filepath config m
          { error := none, nodes := st.nodes, edges := st.edges,
            externalRefs := st.external_refs,
            sourceFileHash := source_hash, filePath := filepath,
            parseTimeMs := elapsedMs,
            warnings := st.warnings ++ [] }

/-- The exit-code decision of `main` after `parse_python_file` returns: the
result goes to stderr with exit code 1 exactly when the top-level error key
is present and the node list is empty; otherwise it is printed to stdout
and the process exits 0. -/
def mainExitCode (r : ParseResult) : Nat :=
  if r.error.isSome ∧ r.nodes = [] then 1 else 0

/-- One step of the parameter-emission fold in `_process_function_args`
(named so the fold can be reasoned about; `processFunctionArgs` is
definitionally this fold over `allArgsList`). -/
def paramStep (p : ParserCfg) (fid : String) (st : ParserState) (a : Arg) : ParserState :=
  let type_ann := a.ann.map unparse
  let r := addNode p st "parameter" a.arg a.loc none none
    [("type_annotation", match type_ann with | some t => PVal.ps t | none => PVal.pnone)]
  addEdge p r.2 "PARAMETER_OF" r.1 fid []

/-! ## Concrete fixtures used by counterexamples and witnesses -/

/-- A fixed configuration for concrete runs. -/
def cfgW : Config := { repoName := "r", packagePath := "p", branch := "base" }

/-- `def f(x): pass` at module level. -/
def mC1 : PyModule :=
  ⟨.cons (.functionDef false "f" ⟨[], [⟨"x", none, Loc.z⟩], none, [], [], none, []⟩
      (.cons (.passStmt Loc.z) .nil) [] none Loc.z) .nil⟩

/-- `class A(B): pass` at module level. -/
def mC2 : PyModule :=
  ⟨.cons (.classDef "A" [.name "B" Loc.z] .nil (.cons (.passStmt Loc.z) .nil) [] Loc.z) .nil⟩

/-- `foo().bar()` as a module-level expression statement. -/
def mC3 : PyModule :=
  ⟨.cons (.exprStmt (.call (.attrAccess (.call (.name "foo" Loc.z) .nil .nil Loc.z) "bar" Loc.z)
      .nil .nil Loc.z) Loc.z) .nil⟩

/-- `def free(self, x): pass` at module level (not a method). -/
def mC4 : PyModule :=
  ⟨.cons (.functionDef false "free"
      ⟨[], [⟨"self", none, Loc.z⟩, ⟨"x", none, Loc.z⟩], none, [], [], none, []⟩
      (.cons (.passStmt Loc.z) .nil) [] none Loc.z) .nil⟩

/-- `class C:` containing `class D: pass` (produces a CONTAINS edge). -/
def mCD : PyModule :=
  ⟨.cons (.classDef "C" [] .nil
      (.cons (.classDef "D" [] .nil (.cons (.passStmt Loc.z) .nil) [] Loc.z) .nil) [] Loc.z) .nil⟩

/-- A front end that always reports a syntax error. -/
def astFailing : String → ParseOutcome := fun _ => .syntaxError "invalid syntax"

/-- A front end that always produces the empty module. -/
def astEmpty : String → ParseOutcome := fun _ => .tree ⟨.nil⟩

/-! ## Specification layer: state invariants and preservation -/

/-- The entity ids of a node list, in emission order. -/
def idsOf (nodes : List NodeData) : List String := nodes.map (fun n => n.entity_id)

/-- The edge's source id occurs strictly earlier in the node list than an
occurrence of its target id. -/
def containsWitness (nodes : List NodeData) (ed : EdgeData) : Prop :=
  ∃ i j : Nat, i < j ∧
    (∃ ni, nodes[i]? = some ni ∧ NodeData.entity_id ni = ed.source_entity_id) ∧
    (∃ nj, nodes[j]? = some nj ∧ NodeData.entity_id nj = ed.target_entity_id)

/-- Well-formedness of one emitted edge relative to the node list: both
endpoints non-blank; a CONTAINS edge points from an earlier-emitted node to
a later one; PARAMETER_OF endpoints are emitted nodes; a CALLS edge has a
non-blank `unresolved:`-tagged target and an emitted-node or module-entity
source; an EXTENDS edge has an emitted-node source and a target generated
from the textual base-class name. -/
def EdgeOK (p : ParserCfg) (nodes : List NodeData) (ed : EdgeData) : Prop :=
  ed.source_entity_id ≠ "" ∧ ed.target_entity_id ≠ "" ∧
  (ed.edge_type = "CONTAINS" → containsWitness nodes ed) ∧
  (ed.edge_type = "PARAMETER_OF" →
     ed.source_entity_id ∈ idsOf nodes ∧ ed.target_entity_id ∈ idsOf nodes) ∧
  (ed.edge_type = "CALLS" →
     (∃ r, ed.target_entity_id = "unresolved:" ++ r ∧ r ≠ "") ∧
     (ed.source_entity_id ∈ idsOf nodes ∨ ed.source_entity_id = moduleEntityId p)) ∧
  (ed.edge_type = "EXTENDS" →
     ed.source_entity_id ∈ idsOf nodes ∧
     (∃ nm, ed.target_entity_id = generateEntityId p "class" nm))

/-- The (source, target) pairs of the CONTAINS edges, in emission order. -/
def containsPairs (edges : List EdgeData) : List (String × String) :=
  (edges.filter (fun ed => ed.edge_type == "CONTAINS")).map
    (fun ed => (ed.source_entity_id, ed.target_entity_id))

/-- The (enclosing-class id, created id) pairs of the node-creation events
that happen with a truthy enclosing class context and a non-parameter kind,
in creation order. -/
def logPairs (log : List CreationEntry) : List (String × String) :=
  (log.filter (fun l => (l.class_ctx.getD "" != "") && (l.kind != "parameter"))).map
    (fun l => (l.class_ctx.getD "", l.entity_id))

/-- The traversal invariant: the current class/function entity ids (when
set) are ids of already-emitted nodes, every emitted node id is non-blank,
every emitted edge is well-formed against the emitted nodes, and the
CONTAINS edges correspond one-to-one (in order) to the node creations made
under a truthy class context with a non-parameter kind. -/
structure StInv (p : ParserCfg) (st : ParserState) : Prop where
  cctx_mem : ∀ c, st.current_class_entity_id = some c → c ∈ idsOf st.nodes
  fctx_mem : ∀ c, st.current_function_entity_id = some c → c ∈ idsOf st.nodes
  ids_ok : ∀ id ∈ idsOf st.nodes, id ≠ ""
  edges_ok : ∀ ed ∈ st.edges, EdgeOK p st.nodes ed
  log_ok : containsPairs st.edges = logPairs st.creation_log

/-- What one traversal step preserves: the scope stack, the class/function
context and the warnings are restored to their entry values; nodes and
edges only grow by appending; and the invariant is maintained. -/
structure Pres (p : ParserCfg) (st st2 : ParserState) : Prop where
  scope : st2.scope_stack = st.scope_stack
  cname : st2.current_class_name = st.current_class_name
  cctx : st2.current_class_entity_id = st.current_class_entity_id
  fctx : st2.current_function_entity_id = st.current_function_entity_id
  warn : st2.warnings = st.warnings
  nmono : ∃ t, st2.nodes = st.nodes ++ t
  emono : ∃ t, st2.edges = st.edges ++ t
  inv : StInv p st → StInv p st2

theorem presRefl {p : ParserCfg} {st : ParserState} : Pres p st st :=
  ⟨rfl, rfl, rfl, rfl, rfl, ⟨[], (List.append_nil _).symm⟩, ⟨[], (List.append_nil _).symm⟩, id⟩

theorem presTrans {p : ParserCfg} {a b c : ParserState}
    (h1 : Pres p a b) (h2 : Pres p b c) : Pres p a c := by
  refine ⟨h2.scope.trans h1.scope, h2.cname.trans h1.cname, h2.cctx.trans h1.cctx,
    h2.fctx.trans h1.fctx, h2.warn.trans h1.warn, ?_, ?_, fun hi => h2.inv (h1.inv hi)⟩
  · obtain ⟨t1, e1⟩ := h1.nmono
    obtain ⟨t2, e2⟩ := h2.nmono
    exact ⟨t1 ++ t2, by rw [e2, e1, List.append_assoc]⟩
  · obtain ⟨t1, e1⟩ := h1.emono
    obtain ⟨t2, e2⟩ := h2.emono
    exact ⟨t1 ++ t2, by rw [e2, e1, List.append_assoc]⟩

/-- A string whose character list is nonempty is not `""`. -/
theorem str_ne_of_data_ne {a : String} (h : a.data ≠ []) : a ≠ "" := by
  intro he
  apply h
  rw [he]

/-- Left-nonempty concatenations of strings are not `""`. -/
theorem append_ne_of_left_ne {a : String} (b : String) (h : a.data ≠ []) : a ++ b ≠ "" := by
  apply str_ne_of_data_ne
  show a.data ++ b.data ≠ []
  simp [h]

/-- Every generated entity id is non-blank (it contains `:` separators). -/
theorem generateEntityId_ne (p : ParserCfg) (kind scoped_name : String) :
    generateEntityId p kind scoped_name ≠ "" := by
  apply str_ne_of_data_ne
  show (p.repo_name.data ++ (":").data ++ p.package_path.data ++ (":").data ++ kind.data
      ++ (":").data ++ (generateScopeHash scoped_name).data) ≠ []
  simp

/-- The synthesized module entity id is non-blank. -/
theorem moduleEntityId_ne (p : ParserCfg) : moduleEntityId p ≠ "" :=
  generateEntityId_ne p "module" (basename p.filepath)

theorem idsOf_append (a b : List NodeData) : idsOf (a ++ b) = idsOf a ++ idsOf b :=
  List.map_append _ a b

theorem containsWitness_mono {nodes : List NodeData} (t : List NodeData) {ed : EdgeData}
    (h : containsWitness nodes ed) : containsWitness (nodes ++ t) ed := by
  obtain ⟨i, j, hij, ⟨ni, hni, hni2⟩, ⟨nj, hnj, hnj2⟩⟩ := h
  refine ⟨i, j, hij, ⟨ni, ?_, hni2⟩, ⟨nj, ?_, hnj2⟩⟩
  · rw [List.getElem?_append_left (List.getElem?_eq_some.1 hni).1]
    exact hni
  · rw [List.getElem?_append_left (List.getElem?_eq_some.1 hnj).1]
    exact hnj

theorem EdgeOK_mono {p : ParserCfg} {nodes : List NodeData} (t : List NodeData) {ed : EdgeData}
    (h : EdgeOK p nodes ed) : EdgeOK p (nodes ++ t) ed := by
  obtain ⟨h1, h2, h3, h4, h5, h6⟩ := h
  refine ⟨h1, h2, fun hc => containsWitness_mono t (h3 hc), fun hc => ?_, fun hc => ?_, fun hc => ?_⟩
  · obtain ⟨ha, hb⟩ := h4 hc
    exact ⟨by rw [idsOf_append]; exact List.mem_append_left _ ha,
           by rw [idsOf_append]; exact List.mem_append_left _ hb⟩
  · obtain ⟨ha, hb⟩ := h5 hc
    refine ⟨ha, ?_⟩
    rcases hb with hb | hb
    · exact Or.inl (by rw [idsOf_append]; exact List.mem_append_left _ hb)
    · exact Or.inr hb
  · obtain ⟨ha, hb⟩ := h6 hc
    exact ⟨by rw [idsOf_append]; exact List.mem_append_left _ ha, hb⟩

/-- An id occurring in a node list occurs at some index. -/
theorem mem_idsOf {c : String} {nodes : List NodeData} (h : c ∈ idsOf nodes) :
    ∃ i : Nat, ∃ ni, nodes[i]? = some ni ∧ NodeData.entity_id ni = c ∧ i < nodes.length := by
  obtain ⟨ni, hmem, hid⟩ := List.mem_map.1 h
  obtain ⟨i, hi⟩ := List.getElem?_of_mem hmem
  exact ⟨i, ni, hi, hid, (List.getElem?_eq_some.1 hi).1⟩

/-- `_add_edge` with a non-CONTAINS edge type preserves the traversal
invariant provided the new edge is well-formed. -/
theorem addEdge_pres (p : ParserCfg) (st : ParserState) (ty src tgt : String)
    (extra : List (String × PVal))
    (hty : ty ≠ "CONTAINS")
    (hok : StInv p st → EdgeOK p st.nodes (mkEdge p ty src tgt extra)) :
    Pres p st (addEdge p st ty src tgt extra) := by
  refine ⟨rfl, rfl, rfl, rfl, rfl, ⟨[], (List.append_nil _).symm⟩,
    ⟨[mkEdge p ty src tgt extra], rfl⟩, ?_⟩
  intro hi
  refine ⟨hi.cctx_mem, hi.fctx_mem, hi.ids_ok, ?_, ?_⟩
  · intro ed hed
    rcases List.mem_append.1 hed with h | h
    · exact hi.edges_ok ed h
    · rw [List.mem_singleton.1 h]
      exact hok hi
  · show containsPairs (st.edges ++ [mkEdge p ty src tgt extra]) = logPairs st.creation_log
    rw [containsPairs, List.filter_append]
    have hbeq : ((mkEdge p ty src tgt extra).edge_type == "CONTAINS") = false := by
      simp [mkEdge, hty]
    have hf : List.filter (fun ed => ed.edge_type == "CONTAINS") [mkEdge p ty src tgt extra] = [] := by
      simp only [List.filter, hbeq]
    rw [hf, List.append_nil]
    exact hi.log_ok


/-- `_add_node` preserves the traversal invariant and returns the generated
entity id, which is now among the emitted node ids.  The hypothesis records
the only two shapes of `parent_entity_id` the visitor ever passes: the
current class context for non-parameter nodes, and nothing for parameters. -/
theorem addNode_pres (p : ParserCfg) (st : ParserState) (kind name : String) (loc : Loc)
    (doc : Option String) (parent : Option String) (extra : List (String × PVal))
    (hpar : (parent = st.current_class_entity_id ∧ kind ≠ "parameter")
          ∨ (parent = none ∧ kind = "parameter")) :
    Pres p st (addNode p st kind name loc doc parent extra).2
    ∧ (addNode p st kind name loc doc parent extra).1
        = generateEntityId p kind (getScopedName st.scope_stack name)
    ∧ (addNode p st kind name loc doc parent extra).1
        ∈ idsOf (addNode p st kind name loc doc parent extra).2.nodes := by
  set eid := generateEntityId p kind (getScopedName st.scope_stack name) with heid
  set nd : NodeData :=
    { entity_id := eid, kind := kind, name := name,
      qualified_name := getScopedName st.scope_stack name, file_path := p.filepath,
      start_line := loc.lineno, end_line := loc.end_lineno,
      start_column := loc.col_offset, end_column := loc.end_col_offset,
      language := "python", is_exported := true, extra := extra,
      documentation := if (doc.getD "") ≠ "" then doc else none } with hnd
  set entry : CreationEntry :=
    { entity_id := eid, kind := kind,
      class_ctx := st.current_class_entity_id,
      fn_ctx := st.current_function_entity_id } with hentry
  set st1 : ParserState :=
    { st with nodes := st.nodes ++ [nd], creation_log := st.creation_log ++ [entry] } with hst1
  have hfst : (addNode p st kind name loc doc parent extra).1 = eid := rfl
  have hsnd : (addNode p st kind name loc doc parent extra).2 =
      if (parent.getD "") ≠ "" then addEdge p st1 "CONTAINS" (parent.getD "") eid [] else st1 := rfl
  rw [hfst, hsnd]
  have hid_mem : eid ∈ idsOf (st.nodes ++ [nd]) := by
    rw [idsOf_append]
    apply List.mem_append_right
    simp [idsOf, hnd]
  have hcm : StInv p st → ∀ (c : String),
      st.current_class_entity_id = some c → c ∈ idsOf (st.nodes ++ [nd]) := by
    intro hi c hc
    rw [idsOf_append]; exact List.mem_append_left _ (hi.cctx_mem c hc)
  have hfm : StInv p st → ∀ (c : String),
      st.current_function_entity_id = some c → c ∈ idsOf (st.nodes ++ [nd]) := by
    intro hi c hc
    rw [idsOf_append]; exact List.mem_append_left _ (hi.fctx_mem c hc)
  have hids : StInv p st → ∀ id ∈ idsOf (st.nodes ++ [nd]), id ≠ "" := by
    intro hi id hid
    rw [idsOf_append] at hid
    rcases List.mem_append.1 hid with h | h
    · exact hi.ids_ok id h
    · have : id = eid := by simpa [idsOf, hnd] using h
      rw [this, heid]
      exact generateEntityId_ne p _ _
  split
  case isTrue hcond =>
    have hpl : parent = st.current_class_entity_id ∧ kind ≠ "parameter" := by
      rcases hpar with h | ⟨hn, _⟩
      · exact h
      · rw [hn] at hcond; simp at hcond
    obtain ⟨hpc, hknp⟩ := hpl
    obtain ⟨c, hc⟩ : ∃ c, parent = some c := by
      cases hp : parent with
      | none => rw [hp] at hcond; simp at hcond
      | some c => exact ⟨c, rfl⟩
    have hcne : c ≠ "" := by
      rw [hc] at hcond; simpa using hcond
    have hcctx : st.current_class_entity_id = some c := by rw [← hpc, hc]
    have hgd : parent.getD "" = c := by rw [hc]; rfl
    rw [hgd]
    have hnodes : (addEdge p st1 "CONTAINS" c eid []).nodes = st.nodes ++ [nd] := rfl
    have hedges : (addEdge p st1 "CONTAINS" c eid []).edges
        = st.edges ++ [mkEdge p "CONTAINS" c eid []] := rfl
    have hlog : (addEdge p st1 "CONTAINS" c eid []).creation_log
        = st.creation_log ++ [entry] := rfl
    refine ⟨⟨rfl, rfl, rfl, rfl, rfl, ⟨[nd], hnodes⟩, ⟨[mkEdge p "CONTAINS" c eid []], hedges⟩, ?_⟩,
      rfl, by rw [hnodes]; exact hid_mem⟩
    intro hi
    refine ⟨?_, ?_, ?_, ?_, ?_⟩
    · intro c' hc'
      rw [hnodes]; exact hcm hi c' hc'
    · intro c' hc'
      rw [hnodes]; exact hfm hi c' hc'
    · rw [hnodes]; exact hids hi
    · intro ed hed
      rw [hedges] at hed
      rw [hnodes]
      rcases List.mem_append.1 hed with h | h
      · exact EdgeOK_mono [nd] (hi.edges_ok ed h)
      · rw [List.mem_singleton.1 h]
        refine ⟨hcne, by rw [heid]; exact generateEntityId_ne p _ _, ?_, ?_, ?_, ?_⟩
        · intro _
          obtain ⟨i, ni, hgi, hni, hlt⟩ := mem_idsOf (hi.cctx_mem c hcctx)
          refine ⟨i, st.nodes.length, hlt, ⟨ni, ?_, hni⟩, ⟨nd, ?_, rfl⟩⟩
          · rw [List.getElem?_append_left hlt]; exact hgi
          · exact List.getElem?_concat_length _ _
        · intro habs; simp [mkEdge] at habs
        · intro habs; simp [mkEdge] at habs
        · intro habs; simp [mkEdge] at habs
    · show containsPairs (addEdge p st1 "CONTAINS" c eid []).edges
         = logPairs (addEdge p st1 "CONTAINS" c eid []).creation_log
      rw [hedges, hlog, containsPairs, logPairs, List.filter_append, List.filter_append,
        List.map_append, List.map_append]
      have h1 : (List.filter (fun ed => ed.edge_type == "CONTAINS")
          [mkEdge p "CONTAINS" c eid []]).map
            (fun ed => (ed.source_entity_id, ed.target_entity_id)) = [(c, eid)] := by
        simp [mkEdge]
      have h2 : (List.filter (fun l => (l.class_ctx.getD "" != "") && (l.kind != "parameter"))
          [entry]).map (fun l => (l.class_ctx.getD "", l.entity_id)) = [(c, eid)] := by
        simp [hentry, hcctx, hcne, hknp]
      rw [h1, h2]
      exact congrArg (· ++ [(c, eid)]) hi.log_ok
  case isFalse hcond =>
    refine ⟨⟨rfl, rfl, rfl, rfl, rfl, ⟨[nd], rfl⟩, ⟨[], (List.append_nil _).symm⟩, ?_⟩,
      rfl, hid_mem⟩
    intro hi
    refine ⟨hcm hi, hfm hi, hids hi, ?_, ?_⟩
    · intro ed hed
      exact EdgeOK_mono [nd] (hi.edges_ok ed hed)
    · show containsPairs st.edges = logPairs (st.creation_log ++ [entry])
      rw [logPairs, List.filter_append, List.map_append]
      have h2 : (List.filter (fun l => (l.class_ctx.getD "" != "") && (l.kind != "parameter"))
          [entry]).map (fun l => (l.class_ctx.getD "", l.entity_id)) = [] := by
        rcases hpar with ⟨hpc, _⟩ | ⟨_, hkp⟩
        · have hz : st.current_class_entity_id.getD "" = "" := by
            rw [← hpc]
            by_contra hne
            exact hcond hne
          simp [hentry, hz]
        · simp [hentry, hkp]
      rw [h2, List.append_nil]
      exact hi.log_ok

/-- The CALLS-emitting step of `visit_Call` preserves the invariant. -/
theorem visitCallEdgeStep_pres (p : ParserCfg) (st : ParserState) (f : Expr)
    (args : ExprList) (kws : KeywordList) (loc : Loc) :
    Pres p st (visitCallEdgeStep p st f args kws loc) := by
  rw [visitCallEdgeStep]
  split
  case isTrue hcond =>
    apply addEdge_pres
    · decide
    · intro hi
      refine ⟨?_, ?_, ?_, ?_, ?_, ?_⟩
      · show (if st.current_function_entity_id.getD "" = "" then moduleEntityId p
              else st.current_function_entity_id.getD "") ≠ ""
        split
        · exact moduleEntityId_ne p
        · assumption
      · show "unresolved:" ++ (extractCalleeName f).getD "" ≠ ""
        apply append_ne_of_left_ne
        decide
      · intro habs; simp [mkEdge] at habs
      · intro habs; simp [mkEdge] at habs
      · intro _
        refine ⟨⟨(extractCalleeName f).getD "", rfl, hcond⟩, ?_⟩
        show (if st.current_function_entity_id.getD "" = "" then moduleEntityId p
              else st.current_function_entity_id.getD "") ∈ idsOf st.nodes
            ∨ (if st.current_function_entity_id.getD "" = "" then moduleEntityId p
              else st.current_function_entity_id.getD "") = moduleEntityId p
        split
        case isTrue => exact Or.inr rfl
        case isFalse hne =>
          refine Or.inl (hi.fctx_mem _ ?_)
          cases hf : st.current_function_entity_id with
          | none => rw [hf] at hne; simp at hne
          | some v => rfl
      · intro habs; simp [mkEdge] at habs
  case isFalse => exact presRefl

/-- `_add_external_ref` only appends to the external-reference list. -/
theorem addExternalRef_pres (p : ParserCfg) (st : ParserState)
    (ms isym src : String) (ln : Option String) :
    Pres p st (addExternalRef p st ms isym src ln) := by
  refine ⟨rfl, rfl, rfl, rfl, rfl, ⟨[], (List.append_nil _).symm⟩,
    ⟨[], (List.append_nil _).symm⟩, ?_⟩
  intro hi
  exact ⟨hi.cctx_mem, hi.fctx_mem, hi.ids_ok, hi.edges_ok, hi.log_ok⟩

/-- Folding invariant-preserving steps over a list preserves the invariant. -/
theorem foldl_pres {α : Type} {p : ParserCfg} {f : ParserState → α → ParserState}
    (h : ∀ st a, Pres p st (f st a)) :
    ∀ (l : List α) (st : ParserState), Pres p st (l.foldl f st)
  | [], st => presRefl
  | a :: l, st => presTrans (h st a) (foldl_pres h l (f st a))

mutual
/-- Every expression visit preserves the traversal invariant and restores
the scope context. -/
theorem visitExpr_pres (p : ParserCfg) (st : ParserState) (e : Expr) :
    Pres p st (visitExpr p st e) := by
  cases e with
  | call f args kws loc =>
      rw [visitExpr]
      exact presTrans (visitCallEdgeStep_pres p st f args kws loc)
        (presTrans (visitExpr_pres p _ f)
          (presTrans (visitExprList_pres p _ args) (visitKeywordList_pres p _ kws)))
  | attrAccess v a loc =>
      rw [visitExpr]; exact visitExpr_pres p st v
  | subscript v sl loc =>
      rw [visitExpr]
      exact presTrans (visitExpr_pres p st v) (visitExpr_pres p _ sl)
  | name id loc => rw [visitExpr]; exact presRefl
  | constantStr s loc => rw [visitExpr]; exact presRefl
  | constantNone loc => rw [visitExpr]; exact presRefl
  | yield0 loc => rw [visitExpr]; exact presRefl
  | yield1 v loc => rw [visitExpr]; exact visitExpr_pres p st v
  | yieldFrom v loc => rw [visitExpr]; exact visitExpr_pres p st v
/-- Visiting an expression list preserves the invariant. -/
theorem visitExprList_pres (p : ParserCfg) (st : ParserState) (es : ExprList) :
    Pres p st (visitExprList p st es) := by
  cases es with
  | nil => rw [visitExprList]; exact presRefl
  | cons e rest =>
      rw [visitExprList]
      exact presTrans (visitExpr_pres p st e) (visitExprList_pres p _ rest)
/-- Visiting keyword arguments preserves the invariant. -/
theorem visitKeywordList_pres (p : ParserCfg) (st : ParserState) (ks : KeywordList) :
    Pres p st (visitKeywordList p st ks) := by
  cases ks with
  | nil => rw [visitKeywordList]; exact presRefl
  | cons a v rest =>
      rw [visitKeywordList]
      exact presTrans (visitExpr_pres p st v) (visitKeywordList_pres p _ rest)
end

/-- Visiting a plain list of child expressions preserves the invariant. -/
theorem visitExprs_pres (p : ParserCfg) (st : ParserState) (es : List Expr) :
    Pres p st (visitExprs p st es) :=
  foldl_pres (fun st e => visitExpr_pres p st e) es st

/-- Visiting an optional child expression preserves the invariant. -/
theorem visitOptExpr_pres (p : ParserCfg) (st : ParserState) (o : Option Expr) :
    Pres p st (visitOptExpr p st o) := by
  cases o with
  | none => exact presRefl
  | some e => exact visitExpr_pres p st e

/-- Visiting one `ast.arg` child preserves the invariant. -/
theorem visitArg_pres (p : ParserCfg) (st : ParserState) (a : Arg) :
    Pres p st (visitArg p st a) :=
  visitOptExpr_pres p st (Arg.ann a)

/-- Visiting a list of `ast.arg` children preserves the invariant. -/
theorem visitArgList_pres (p : ParserCfg) (st : ParserState) (l : List Arg) :
    Pres p st (visitArgList p st l) :=
  foldl_pres (fun st a => visitArg_pres p st a) l st

/-- Visiting optional default expressions preserves the invariant. -/
theorem visitOptExprList_pres (p : ParserCfg) (st : ParserState) (l : List (Option Expr)) :
    Pres p st (visitOptExprList p st l) :=
  foldl_pres (fun st o => visitOptExpr_pres p st o) l st

/-- Visiting an optional `ast.arg` child (`vararg` / `kwarg`) preserves
the invariant. -/
theorem visitOptArg_pres (p : ParserCfg) (st : ParserState) (o : Option Arg) :
    Pres p st (match o with | some v => visitArg p st v | none => st) := by
  cases o with
  | none => exact presRefl
  | some v => exact visitArg_pres p st v

/-- `generic_visit` over the `ast.arguments` children preserves the
invariant. -/
theorem visitArgumentsChildren_pres (p : ParserCfg) (st : ParserState) (args : Arguments) :
    Pres p st (visitArgumentsChildren p st args) := by
  rw [visitArgumentsChildren]
  refine presTrans (visitArgList_pres p st args.posonlyargs) ?_
  refine presTrans (visitArgList_pres p _ args.args) ?_
  refine presTrans (visitOptArg_pres p _ args.vararg) ?_
  refine presTrans (visitArgList_pres p _ args.kwonlyargs) ?_
  refine presTrans (visitOptExprList_pres p _ args.kw_defaults) ?_
  refine presTrans (visitOptArg_pres p _ args.kwarg) ?_
  exact visitExprs_pres p _ args.defaults

/-- The parameter-emission fold of `_process_function_args` preserves the
invariant, provided the owning function id is a non-blank emitted node id. -/
theorem processArgsFold_pres (p : ParserCfg) (fid : String) (hfne : fid ≠ "") :
    ∀ (l : List Arg) (st : ParserState), fid ∈ idsOf st.nodes →
      Pres p st (l.foldl (fun st a =>
        let type_ann := a.ann.map unparse
        let r := addNode p st "parameter" a.arg a.loc none none
          [("type_annotation", match type_ann with | some t => .ps t | none => .pnone)]
        addEdge p r.2 "PARAMETER_OF" r.1 fid []) st)
  | [], st, _ => presRefl
  | a :: l, st, hmem => by
      have hN := addNode_pres p st "parameter" a.arg a.loc none none
        [("type_annotation", match a.ann.map unparse with | some t => .ps t | none => .pnone)]
        (Or.inr ⟨rfl, rfl⟩)
      obtain ⟨hp1, hgen, hidm⟩ := hN
      set r := addNode p st "parameter" a.arg a.loc none none
        [("type_annotation", match a.ann.map unparse with | some t => .ps t | none => .pnone)] with hr
      have hmem2 : fid ∈ idsOf r.2.nodes := by
        obtain ⟨t, ht⟩ := hp1.nmono
        rw [ht, idsOf_append]
        exact List.mem_append_left _ hmem
      have hE : Pres p r.2 (addEdge p r.2 "PARAMETER_OF" r.1 fid []) := by
        apply addEdge_pres
        · decide
        · intro hi
          refine ⟨by rw [hgen]; exact generateEntityId_ne p _ _, hfne, ?_, ?_, ?_, ?_⟩
          · intro habs; simp [mkEdge] at habs
          · intro _; exact ⟨hidm, hmem2⟩
          · intro habs; simp [mkEdge] at habs
          · intro habs; simp [mkEdge] at habs
      have hmem3 : fid ∈ idsOf (addEdge p r.2 "PARAMETER_OF" r.1 fid []).nodes := hmem2
      exact presTrans (presTrans hp1 hE)
        (processArgsFold_pres p fid hfne l (addEdge p r.2 "PARAMETER_OF" r.1 fid []) hmem3)

/-- `_process_function_args` preserves the invariant. -/
theorem processFunctionArgs_pres (p : ParserCfg) (args : Arguments) (fid : String)
    (hfne : fid ≠ "") (st : ParserState) (hmem : fid ∈ idsOf st.nodes) :
    Pres p st (processFunctionArgs p st args fid) :=
  processArgsFold_pres p fid hfne (allArgsList args) st hmem

/-- The EXTENDS-emission fold of `visit_ClassDef` preserves the invariant,
provided the freshly created class id is a non-blank emitted node id. -/
theorem extendsFold_pres (p : ParserCfg) (eid : String) (hne : eid ≠ "") :
    ∀ (l : List Expr) (st : ParserState), eid ∈ idsOf st.nodes →
      Pres p st (l.foldl (fun st base =>
        let base_name := unparse base
        let base_entity_id := generateEntityId p "class" base_name
        addEdge p st "EXTENDS" eid base_entity_id [("target_name", .ps base_name)]) st)
  | [], st, _ => presRefl
  | b :: l, st, hmem => by
      have hE : Pres p st (addEdge p st "EXTENDS" eid
          (generateEntityId p "class" (unparse b)) [("target_name", .ps (unparse b))]) := by
        apply addEdge_pres
        · decide
        · intro hi
          refine ⟨hne, generateEntityId_ne p _ _, ?_, ?_, ?_, ?_⟩
          · intro habs; simp [mkEdge] at habs
          · intro habs; simp [mkEdge] at habs
          · intro habs; simp [mkEdge] at habs
          · intro _; exact ⟨hmem, ⟨unparse b, rfl⟩⟩
      have hmem2 : eid ∈ idsOf (addEdge p st "EXTENDS" eid
          (generateEntityId p "class" (unparse b)) [("target_name", .ps (unparse b))]).nodes := hmem
      exact presTrans hE (extendsFold_pres p eid hne l _ hmem2)

/-- The module/class-level target fold of `visit_Assign` preserves the
invariant. -/
theorem assignTargets_pres (p : ParserCfg) (loc : Loc) (l : List Expr) (st : ParserState) :
    Pres p st (l.foldl (fun st t =>
      match t with
      | .name id _ =>
          let kind := if pyIsUpper id then "constant" else "variable"
          (addNode p st kind id loc none st.current_class_entity_id []).2
      | _ => st) st) := by
  apply foldl_pres
  intro st t
  cases t with
  | name id loc2 =>
      exact (addNode_pres p st _ id loc none st.current_class_entity_id []
        (Or.inl ⟨rfl, by split <;> decide⟩)).1
  | attrAccess v a loc2 => exact presRefl
  | call f args kws loc2 => exact presRefl
  | subscript v sl loc2 => exact presRefl
  | constantStr s loc2 => exact presRefl
  | constantNone loc2 => exact presRefl
  | yield0 loc2 => exact presRefl
  | yield1 v loc2 => exact presRefl
  | yieldFrom v loc2 => exact presRefl

/-- Restoring the class context after a class body: if the work before the
push and the children's work both preserve the invariant, so does the whole
`visit_ClassDef`-shaped step. -/
theorem classRestore_pres (p : ParserCfg) (st stA st6 : ParserState) (name eid : String)
    (hA : Pres p st stA)
    (heid : eid ∈ idsOf stA.nodes)
    (hB : Pres p
      { stA with
        current_class_name := some name,
        current_class_entity_id := some eid,
        scope_stack := stA.scope_stack ++ [name] } st6) :
    Pres p st
      { st6 with
        scope_stack := st6.scope_stack.dropLast,
        current_class_name := st.current_class_name,
        current_class_entity_id := st.current_class_entity_id } := by
  have hscope : st6.scope_stack = stA.scope_stack ++ [name] := hB.scope
  have hnm : ∃ t, st6.nodes = stA.nodes ++ t := hB.nmono
  have hem : ∃ t, st6.edges = stA.edges ++ t := hB.emono
  refine ⟨?_, rfl, rfl, ?_, ?_, ?_, ?_, ?_⟩
  · show st6.scope_stack.dropLast = st.scope_stack
    rw [hscope, List.dropLast_concat, hA.scope]
  · show st6.current_function_entity_id = st.current_function_entity_id
    rw [hB.fctx]
    exact hA.fctx
  · show st6.warnings = st.warnings
    rw [hB.warn]
    exact hA.warn
  · obtain ⟨t1, h1⟩ := hA.nmono
    obtain ⟨t2, h2⟩ := hnm
    exact ⟨t1 ++ t2, by show st6.nodes = _; rw [h2, h1, List.append_assoc]⟩
  · obtain ⟨t1, h1⟩ := hA.emono
    obtain ⟨t2, h2⟩ := hem
    exact ⟨t1 ++ t2, by show st6.edges = _; rw [h2, h1, List.append_assoc]⟩
  · intro hi
    have hiA : StInv p stA := hA.inv hi
    have hiP : StInv p
        { stA with
          current_class_name := some name,
          current_class_entity_id := some eid,
          scope_stack := stA.scope_stack ++ [name] } := by
      refine ⟨?_, hiA.fctx_mem, hiA.ids_ok, hiA.edges_ok, hiA.log_ok⟩
      intro c hc
      have hce : c = eid := by
        injection hc with h
        exact h.symm
      rw [hce]
      exact heid
    have hi6 : StInv p st6 := hB.inv hiP
    refine ⟨?_, hi6.fctx_mem, hi6.ids_ok, hi6.edges_ok, hi6.log_ok⟩
    intro c hc
    show c ∈ idsOf st6.nodes
    have hcm : c ∈ idsOf st.nodes := hi.cctx_mem c hc
    obtain ⟨t1, h1⟩ := hA.nmono
    obtain ⟨t2, h2⟩ := hnm
    rw [h2, h1, idsOf_append, idsOf_append]
    exact List.mem_append_left _ (List.mem_append_left _ hcm)

/-- Restoring the function context after a function body: the analogue of
`classRestore_pres` for `_visit_function`. -/
theorem fnRestore_pres (p : ParserCfg) (st stA st6 : ParserState) (name eid : String)
    (hA : Pres p st stA)
    (heid : eid ∈ idsOf stA.nodes)
    (hB : Pres p
      { stA with
        current_function_entity_id := some eid,
        scope_stack := stA.scope_stack ++ [name] } st6) :
    Pres p st
      { st6 with
        scope_stack := st6.scope_stack.dropLast,
        current_function_entity_id := st.current_function_entity_id } := by
  have hscope : st6.scope_stack = stA.scope_stack ++ [name] := hB.scope
  refine ⟨?_, ?_, ?_, rfl, ?_, ?_, ?_, ?_⟩
  · show st6.scope_stack.dropLast = st.scope_stack
    rw [hscope, List.dropLast_concat, hA.scope]
  · show st6.current_class_name = st.current_class_name
    rw [hB.cname]
    exact hA.cname
  · show st6.current_class_entity_id = st.current_class_entity_id
    rw [hB.cctx]
    exact hA.cctx
  · show st6.warnings = st.warnings
    rw [hB.warn]
    exact hA.warn
  · obtain ⟨t1, h1⟩ := hA.nmono
    obtain ⟨t2, h2⟩ := hB.nmono
    exact ⟨t1 ++ t2, by show st6.nodes = _; rw [h2, h1, List.append_assoc]⟩
  · obtain ⟨t1, h1⟩ := hA.emono
    obtain ⟨t2, h2⟩ := hB.emono
    exact ⟨t1 ++ t2, by show st6.edges = _; rw [h2, h1, List.append_assoc]⟩
  · intro hi
    have hiA : StInv p stA := hA.inv hi
    have hiP : StInv p
        { stA with
          current_function_entity_id := some eid,
          scope_stack := stA.scope_stack ++ [name] } := by
      refine ⟨hiA.cctx_mem, ?_, hiA.ids_ok, hiA.edges_ok, hiA.log_ok⟩
      intro c hc
      have hce : c = eid := by
        injection hc with h
        exact h.symm
      rw [hce]
      exact heid
    have hi6 : StInv p st6 := hB.inv hiP
    refine ⟨hi6.cctx_mem, ?_, hi6.ids_ok, hi6.edges_ok, hi6.log_ok⟩
    intro c hc
    show c ∈ idsOf st6.nodes
    have hcm : c ∈ idsOf st.nodes := hi.fctx_mem c hc
    obtain ⟨t1, h1⟩ := hA.nmono
    obtain ⟨t2, h2⟩ := hB.nmono
    rw [h2, h1, idsOf_append, idsOf_append]
    exact List.mem_append_left _ (List.mem_append_left _ hcm)

mutual
/-- Every statement visit preserves the traversal invariant: the scope
stack, class/function context and warnings return to their entry values,
and nodes/edges only grow. -/
theorem visitStmt_pres (p : ParserCfg) (st : ParserState) (s : Stmt) :
    Pres p st (visitStmt p st s) := by
  cases s with
  | classDef name bases kws body decs loc =>
      rw [visitStmt]
      have hN := addNode_pres p st "class" name loc (getDocstring body)
        st.current_class_entity_id
        [("properties", if decs.map unparse ≠ [] then
            PVal.pdict [("decorators", PDictVal.dlist (decs.map unparse))] else PVal.pdict [])]
        (Or.inl ⟨rfl, by decide⟩)
      obtain ⟨hp1, hgen, hidm⟩ := hN
      have hne : (addNode p st "class" name loc (getDocstring body)
          st.current_class_entity_id
          [("properties", if decs.map unparse ≠ [] then
              PVal.pdict [("decorators", PDictVal.dlist (decs.map unparse))] else PVal.pdict [])]).1
          ≠ "" := by
        rw [hgen]; exact generateEntityId_ne p _ _
      have hF := extendsFold_pres p _ hne bases _ hidm
      apply classRestore_pres p st _ _ name _
      · exact presTrans hp1 hF
      · obtain ⟨t, ht⟩ := hF.nmono
        rw [ht, idsOf_append]
        exact List.mem_append_left _ hidm
      · exact presTrans (visitExprs_pres p _ bases)
          (presTrans (visitKeywordList_pres p _ kws)
            (presTrans (visitStmtList_pres p _ body) (visitExprs_pres p _ decs)))
  | functionDef is_async name args body decs returns loc =>
      rw [visitStmt]
      have hpar : (if st.current_class_entity_id.isSome then st.current_class_entity_id else none)
            = st.current_class_entity_id
          ∧ (if st.current_class_entity_id.isSome then "method" else "function") ≠ "parameter" := by
        cases st.current_class_entity_id with
        | none => exact ⟨rfl, by decide⟩
        | some v =>
            refine ⟨rfl, ?_⟩
            show ("method" : String) ≠ "parameter"
            decide
      have hN := addNode_pres p st
        (if st.current_class_entity_id.isSome then "method" else "function")
        name loc (getDocstring body)
        (if st.current_class_entity_id.isSome then st.current_class_entity_id else none)
        (buildFnExtra is_async (hasDecorator decs "staticmethod") (hasDecorator decs "classmethod")
          (hasDecorator decs "property") (isGeneratorFn args body decs returns)
          (returns.map unparse) (decs.map unparse))
        (Or.inl hpar)
      obtain ⟨hp1, hgen, hidm⟩ := hN
      have hne : (addNode p st
          (if st.current_class_entity_id.isSome then "method" else "function")
          name loc (getDocstring body)
          (if st.current_class_entity_id.isSome then st.current_class_entity_id else none)
          (buildFnExtra is_async (hasDecorator decs "staticmethod") (hasDecorator decs "classmethod")
            (hasDecorator decs "property") (isGeneratorFn args body decs returns)
            (returns.map unparse) (decs.map unparse))).1 ≠ "" := by
        rw [hgen]; exact generateEntityId_ne p _ _
      apply fnRestore_pres p st _ _ name _
      · exact hp1
      · exact hidm
      · refine presTrans (processFunctionArgs_pres p args _ hne _ hidm) ?_
        exact presTrans (visitArgumentsChildren_pres p _ args)
          (presTrans (visitStmtList_pres p _ body)
            (presTrans (visitExprs_pres p _ decs) (visitOptExpr_pres p _ returns)))
  | importStmt names loc =>
      rw [visitStmt]
      exact foldl_pres
        (fun st2 al => addExternalRef_pres p st2 al.name "*" (importSourceEntity p st) al.asname)
        names st
  | importFrom module names level loc =>
      rw [visitStmt]
      exact foldl_pres
        (fun st2 al => addExternalRef_pres p st2 (importFromModule module level) al.name
          (importSourceEntity p st) al.asname)
        names st
  | assign targets value loc =>
      rw [visitStmt]
      split
      case isTrue h =>
        exact presTrans (assignTargets_pres p loc targets st)
          (presTrans (visitExprs_pres p _ targets) (visitExpr_pres p _ value))
      case isFalse h =>
        exact presTrans (visitExprs_pres p st targets) (visitExpr_pres p _ value)
  | annAssign target ann value loc =>
      rw [visitStmt]
      have hchain : ∀ st1 : ParserState,
          Pres p st1 (visitOptExpr p (visitExpr p (visitExpr p st1 target) ann) value) :=
        fun st1 =>
          presTrans (visitExpr_pres p st1 target)
            (presTrans (visitExpr_pres p _ ann) (visitOptExpr_pres p _ value))
      refine presTrans ?_ (hchain _)
      split
      next nm heq =>
        split
        case isTrue h =>
          have hk : (if annValueIsTypeAlias value then "type"
              else if pyIsUpper nm then "constant" else "variable") ≠ "parameter" := by
            split
            · decide
            · split
              · decide
              · decide
          exact (addNode_pres p st
            (if annValueIsTypeAlias value then "type"
              else if pyIsUpper nm then "constant" else "variable")
            nm loc none st.current_class_entity_id
            [("type_annotation", .ps (unparse ann))]
            (Or.inl ⟨rfl, hk⟩)).1
        case isFalse h => exact presRefl
      next heq => exact presRefl
  | exprStmt v loc =>
      rw [visitStmt]
      exact visitExpr_pres p st v
  | ret v loc =>
      rw [visitStmt]
      exact visitOptExpr_pres p st v
  | ifStmt c body orelse loc =>
      rw [visitStmt]
      exact presTrans (visitExpr_pres p st c)
        (presTrans (visitStmtList_pres p _ body) (visitStmtList_pres p _ orelse))
  | passStmt loc =>
      rw [visitStmt]
      exact presRefl
/-- Visiting a statement list preserves the invariant. -/
theorem visitStmtList_pres (p : ParserCfg) (st : ParserState) (l : StmtList) :
    Pres p st (visitStmtList p st l) := by
  cases l with
  | nil => rw [visitStmtList]; exact presRefl
  | cons s rest =>
      rw [visitStmtList]
      exact presTrans (visitStmt_pres p st s) (visitStmtList_pres p _ rest)
end

/-- The freshly-initialized state satisfies the traversal invariant. -/
theorem stInv_init (p : ParserCfg) : StInv p initState := by
  refine ⟨?_, ?_, ?_, ?_, rfl⟩
  · intro c hc; cases hc
  · intro c hc; cases hc
  · intro id hid; cases hid
  · intro ed hed; cases hed

/-- One full traversal preserves the invariant from the initial state. -/
theorem runVisitor_pres (filepath : String) (config : Config) (m : PyModule) :
    Pres (mkCfg filepath config) initState (runVisitor filepath config m) :=
  visitStmtList_pres (mkCfg filepath config) initState m.body

/-- The final state of a full traversal satisfies the invariant. -/
theorem runVisitor_inv (filepath : String) (config : Config) (m : PyModule) :
    StInv (mkCfg filepath config) (runVisitor filepath config m) :=
  (runVisitor_pres filepath config m).inv (stInv_init _)

/-! ## Claim theorems -/

/-- C8: for every syntax node visited by the Tree Walker, when the visit of
that node's subtree completes, the scope-name stack, the current class
entity id and the current function entity id equal their values on entry —
restoration happens on every exit path (the traversal functions are total,
so this covers all exits). -/
theorem c8_scope_restoration (p : ParserCfg) (st : ParserState) :
    (∀ s : Stmt,
      (visitStmt p st s).scope_stack = st.scope_stack
      ∧ (visitStmt p st s).current_class_entity_id = st.current_class_entity_id
      ∧ (visitStmt p st s).current_function_entity_id = st.current_function_entity_id)
    ∧ (∀ e : Expr,
      (visitExpr p st e).scope_stack = st.scope_stack
      ∧ (visitExpr p st e).current_class_entity_id = st.current_class_entity_id
      ∧ (visitExpr p st e).current_function_entity_id = st.current_function_entity_id) :=
  ⟨fun s => ⟨(visitStmt_pres p st s).scope, (visitStmt_pres p st s).cctx,
    (visitStmt_pres p st s).fctx⟩,
   fun e => ⟨(visitExpr_pres p st e).scope, (visitExpr_pres p st e).cctx,
    (visitExpr_pres p st e).fctx⟩⟩

/-- C9: two invocations on byte-identical content with the same path,
configuration and front end produce identical nodes, edges, external
references, hash, error field, warnings and file path; only `parseTimeMs`
can differ (it is the only field the elapsed-time input reaches). -/
theorem c9_determinism (filepath : String) (config : Config) (read : ReadResult)
    (astParse : String → ParseOutcome) (t1 t2 : Nat) :
    (parsePythonFile filepath config read astParse t1).nodes
      = (parsePythonFile filepath config read astParse t2).nodes
    ∧ (parsePythonFile filepath config read astParse t1).edges
      = (parsePythonFile filepath config read astParse t2).edges
    ∧ (parsePythonFile filepath config read astParse t1).externalRefs
      = (parsePythonFile filepath config read astParse t2).externalRefs
    ∧ (parsePythonFile filepath config read astParse t1).sourceFileHash
      = (parsePythonFile filepath config read astParse t2).sourceFileHash
    ∧ (parsePythonFile filepath config read astParse t1).error
      = (parsePythonFile filepath config read astParse t2).error
    ∧ (parsePythonFile filepath config read astParse t1).warnings
      = (parsePythonFile filepath config read astParse t2).warnings
    ∧ (parsePythonFile filepath config read astParse t1).filePath
      = (parsePythonFile filepath config read astParse t2).filePath := by
  cases read with
  | fileNotFound => exact ⟨rfl, rfl, rfl, rfl, rfl, rfl, rfl⟩
  | otherError e => exact ⟨rfl, rfl, rfl, rfl, rfl, rfl, rfl⟩
  | ok raw =>
      simp only [parsePythonFile]
      cases astParse (textRead raw) <;> exact ⟨rfl, rfl, rfl, rfl, rfl, rfl, rfl⟩

/-- C6: when the file reads successfully but the front end reports a syntax
error, the result has empty nodes/edges/externalRefs, no top-level error
field, a warnings list holding exactly the syntax-error message, the source
hash still computed — and the CLI prints it to stdout with exit code 0. -/
theorem c6_syntax_error_path (filepath : String) (config : Config) (raw : List Char)
    (astParse : String → ParseOutcome) (t : Nat) (msg : String)
    (h : astParse (textRead raw) = .syntaxError msg) :
    (parsePythonFile filepath config (.ok raw) astParse t).nodes = []
    ∧ (parsePythonFile filepath config (.ok raw) astParse t).edges = []
    ∧ (parsePythonFile filepath config (.ok raw) astParse t).externalRefs = []
    ∧ (parsePythonFile filepath config (.ok raw) astParse t).error = none
    ∧ (parsePythonFile filepath config (.ok raw) astParse t).warnings
        = ["Syntax error: " ++ msg]
    ∧ (parsePythonFile filepath config (.ok raw) astParse t).sourceFileHash
        = sha256Hex (textRead raw)
    ∧ mainExitCode (parsePythonFile filepath config (.ok raw) astParse t) = 0 := by
  refine ⟨?_, ?_, ?_, ?_, ?_, ?_, ?_⟩ <;>
    simp only [parsePythonFile, h, mainExitCode] <;> rfl

/-- Witness for C6 at a concrete failing front end. -/
theorem c6_syntax_error_path_witness :
    (parsePythonFile "f.py" cfgW (.ok ("x(".data)) astFailing 3).nodes = []
    ∧ (parsePythonFile "f.py" cfgW (.ok ("x(".data)) astFailing 3).edges = []
    ∧ (parsePythonFile "f.py" cfgW (.ok ("x(".data)) astFailing 3).externalRefs = []
    ∧ (parsePythonFile "f.py" cfgW (.ok ("x(".data)) astFailing 3).error = none
    ∧ (parsePythonFile "f.py" cfgW (.ok ("x(".data)) astFailing 3).warnings
        = ["Syntax error: " ++ "invalid syntax"]
    ∧ (parsePythonFile "f.py" cfgW (.ok ("x(".data)) astFailing 3).sourceFileHash
        = sha256Hex (textRead ("x(".data))
    ∧ mainExitCode (parsePythonFile "f.py" cfgW (.ok ("x(".data)) astFailing 3) = 0 :=
  c6_syntax_error_path "f.py" cfgW ("x(".data) astFailing 3 "invalid syntax" rfl

/-- C7 (amended): on either IO-failure path the invocation returns
immediately with the top-level error set, empty collections, warnings
mirroring the error text, an empty hash — and the literal `parseTimeMs` 0,
regardless of the elapsed duration (elapsed time is not recorded there). -/
theorem c7_io_failure_path (filepath : String) (config : Config)
    (astParse : String → ParseOutcome) (t : Nat) (e : String) :
    (parsePythonFile filepath config .fileNotFound astParse t).error
        = some ("File not found: " ++ filepath)
    ∧ (parsePythonFile filepath config .fileNotFound astParse t).nodes = []
    ∧ (parsePythonFile filepath config .fileNotFound astParse t).edges = []
    ∧ (parsePythonFile filepath config .fileNotFound astParse t).externalRefs = []
    ∧ (parsePythonFile filepath config .fileNotFound astParse t).warnings
        = ["File not found: " ++ filepath]
    ∧ (parsePythonFile filepath config .fileNotFound astParse t).sourceFileHash = ""
    ∧ (parsePythonFile filepath config .fileNotFound astParse t).parseTimeMs = 0
    ∧ (parsePythonFile filepath config (.otherError e) astParse t).error
        = some ("Error reading file: " ++ e)
    ∧ (parsePythonFile filepath config (.otherError e) astParse t).nodes = []
    ∧ (parsePythonFile filepath config (.otherError e) astParse t).warnings
        = ["Error reading file: " ++ e]
    ∧ (parsePythonFile filepath config (.otherError e) astParse t).parseTimeMs = 0 :=
  ⟨rfl, rfl, rfl, rfl, rfl, rfl, rfl, rfl, rfl, rfl, rfl⟩

/-- Counterexample to C7 as stated: with an elapsed duration of 5 ms, the
IO-failure result still reports `parseTimeMs = 0`, not the elapsed time. -/
theorem c7_counterexample :
    (parsePythonFile "missing.py" cfgW .fileNotFound astEmpty 5).parseTimeMs = 0
    ∧ (parsePythonFile "missing.py" cfgW .fileNotFound astEmpty 5).parseTimeMs ≠ 5 :=
  ⟨rfl, by decide⟩

/-- C10: on a successful parse the warnings list is empty — the traversal
never appends a warning, so warnings only arise on the failure paths. -/
theorem c10_no_warnings_on_success (filepath : String) (config : Config) (raw : List Char)
    (astParse : String → ParseOutcome) (t : Nat) (m : PyModule)
    (h : astParse (textRead raw) = .tree m) :
    (parsePythonFile filepath config (.ok raw) astParse t).warnings = [] := by
  simp only [parsePythonFile, h]
  rw [List.append_nil]
  exact (runVisitor_pres filepath config m).warn

/-- Witness for C10 at a concrete front end producing the empty module. -/
theorem c10_no_warnings_on_success_witness :
    (parsePythonFile "f.py" cfgW (.ok ("x = 1".data)) astEmpty 2).warnings = [] :=
  c10_no_warnings_on_success "f.py" cfgW ("x = 1".data) astEmpty 2 ⟨.nil⟩ rfl

/-- C5 (amended): the source hash is a pure function of the text produced by
universal-newline decoding: any two raw contents that decode to the same
text — in particular byte-identical contents, but also contents differing
only in line terminators — receive the same digest. -/
theorem c5_hash_of_text (filepath : String) (config : Config)
    (astParse : String → ParseOutcome) (t1 t2 : Nat) (raw1 raw2 : List Char)
    (h : universalNewlines raw1 = universalNewlines raw2) :
    (parsePythonFile filepath config (.ok raw1) astParse t1).sourceFileHash
      = (parsePythonFile filepath config (.ok raw2) astParse t2).sourceFileHash := by
  have htxt : textRead raw1 = textRead raw2 := by
    rw [textRead, textRead, h]
  simp only [parsePythonFile, htxt]
  cases astParse (textRead raw2) <;> rfl

/-- Witness for C5 (amended) at concrete CRLF/LF contents and distinct
elapsed times. -/
theorem c5_hash_of_text_witness :
    (parsePythonFile "f.py" cfgW (.ok ("a\r\n".data)) astEmpty 0).sourceFileHash
      = (parsePythonFile "f.py" cfgW (.ok ("a\n".data)) astEmpty 7).sourceFileHash :=
  c5_hash_of_text "f.py" cfgW astEmpty 0 7 ("a\r\n".data) ("a\n".data) (by decide)

/-- Counterexample to C5 as stated: the hash is not computed over the raw
bytes — two different byte contents, `"a\r\n"` and `"a\n"`, receive the
same digest because text-mode reading collapses the line terminators. -/
theorem c5_counterexample :
    ("a\r\n".data ≠ "a\n".data)
    ∧ (parsePythonFile "f.py" cfgW (.ok ("a\r\n".data)) astFailing 0).sourceFileHash
        = (parsePythonFile "f.py" cfgW (.ok ("a\n".data)) astFailing 0).sourceFileHash :=
  ⟨by decide, by decide⟩

/-- A string prefixed by the unresolved tag starts with those 11 characters. -/
theorem take_of_tagged {s r : String} (h : s = "unresolved:" ++ r) :
    s.data.take 11 = ("unresolved:").data := by
  rw [h]
  show (("unresolved:").data ++ r.data).take 11 = ("unresolved:").data
  have h11 : ("unresolved:").data.length = 11 := by decide
  rw [← h11, List.take_left]

/-- The shape of the parameter-emission fold: it appends exactly one
`parameter` node and one PARAMETER_OF edge (from the generated parameter id
to the owning function) per collected argument, in order, and leaves the
scope stack unchanged. -/
theorem processArgsFold_shape (p2 : ParserCfg) (fid : String) :
    ∀ (l : List Arg) (st : ParserState),
      ((l.foldl (paramStep p2 fid) st).nodes.map (fun n => (n.kind, n.name))
        = st.nodes.map (fun n => (n.kind, n.name)) ++ l.map (fun a => ("parameter", a.arg)))
      ∧ ((l.foldl (paramStep p2 fid) st).edges.map
            (fun ed => (ed.edge_type, ed.source_entity_id, ed.target_entity_id))
        = st.edges.map (fun ed => (ed.edge_type, ed.source_entity_id, ed.target_entity_id))
          ++ l.map (fun a => ("PARAMETER_OF",
              generateEntityId p2 "parameter" (getScopedName st.scope_stack a.arg), fid)))
      ∧ (l.foldl (paramStep p2 fid) st).scope_stack = st.scope_stack
  | [], st => ⟨(List.append_nil _).symm, (List.append_nil _).symm, rfl⟩
  | a :: l, st => by
      obtain ⟨ihn, ihe, ihs⟩ := processArgsFold_shape p2 fid l (paramStep p2 fid st a)
      have hfold : (a :: l).foldl (paramStep p2 fid) st = l.foldl (paramStep p2 fid) (paramStep p2 fid st a) := rfl
      have hnodes : (paramStep p2 fid st a).nodes.map (fun n => (n.kind, n.name))
          = st.nodes.map (fun n => (n.kind, n.name)) ++ [("parameter", a.arg)] := by
        show ((st.nodes ++ [(_ : NodeData)]).map (fun n => (n.kind, n.name))) = _
        rw [List.map_append]
        rfl
      have hedges : (paramStep p2 fid st a).edges.map
            (fun ed => (ed.edge_type, ed.source_entity_id, ed.target_entity_id))
          = st.edges.map (fun ed => (ed.edge_type, ed.source_entity_id, ed.target_entity_id))
            ++ [("PARAMETER_OF", generateEntityId p2 "parameter"
                  (getScopedName st.scope_stack a.arg), fid)] := by
        show ((st.edges ++ [(_ : EdgeData)]).map (fun ed => (ed.edge_type, ed.source_entity_id, ed.target_entity_id))) = _
        rw [List.map_append]
        rfl
      have hscope : (paramStep p2 fid st a).scope_stack = st.scope_stack := rfl
      refine ⟨?_, ?_, ?_⟩
      · rw [hfold, ihn, hnodes, List.map_cons, List.append_assoc]
        rfl
      · rw [hfold, ihe, hedges, hscope, List.map_cons, List.append_assoc]
        rfl
      · rw [hfold, ihs, hscope]

/-- C4 (amended): parameter extraction emits one `parameter` node plus one
PARAMETER_OF edge (parameter as source, owning function as target) for
exactly the collected arguments: the positional parameters with every
`self`/`cls`-named one skipped — at any position and also in non-method
functions — then the variadic positional parameter, the keyword-only
parameters and the variadic keyword parameter, in that order
(positional-only parameters are never extracted). -/
theorem c4_parameter_extraction (p2 : ParserCfg) (st : ParserState) (args : Arguments)
    (fid : String) :
    ((processFunctionArgs p2 st args fid).nodes.map (fun n => (n.kind, n.name))
      = st.nodes.map (fun n => (n.kind, n.name))
        ++ (allArgsList args).map (fun a => ("parameter", a.arg)))
    ∧ ((processFunctionArgs p2 st args fid).edges.map
          (fun ed => (ed.edge_type, ed.source_entity_id, ed.target_entity_id))
      = st.edges.map (fun ed => (ed.edge_type, ed.source_entity_id, ed.target_entity_id))
        ++ (allArgsList args).map (fun a => ("PARAMETER_OF",
            generateEntityId p2 "parameter" (getScopedName st.scope_stack a.arg), fid))) := by
  have h : processFunctionArgs p2 st args fid
      = (allArgsList args).foldl (paramStep p2 fid) st := rfl
  rw [h]
  exact ⟨(processArgsFold_shape p2 fid (allArgsList args) st).1,
    (processArgsFold_shape p2 fid (allArgsList args) st).2.1⟩

/-- Counterexample to C4 as stated: in `def free(self, x)` — a module-level
function, not a method — the `self` parameter is still skipped: the only
parameter node is `x` and no parameter node named `self` exists. -/
theorem c4_counterexample :
    ((runVisitor "f.py" cfgW mC4).nodes.map (fun n => (n.kind, n.name)))
      = [("function", "free"), ("parameter", "x")]
    ∧ ((runVisitor "f.py" cfgW mC4).nodes.filter
        (fun n => n.kind == "parameter" && n.name == "self")) = [] := by
  decide

/-- C1 (amended): the CONTAINS edges of one traversal correspond
one-to-one, in order, to the node creations made under a truthy enclosing
class context with a non-parameter kind — the edge source is that class
context and the target the created node's id; parameter nodes, and nodes
whose only enclosing context is a function, receive no CONTAINS edge.
Moreover every CONTAINS edge points from an id emitted strictly earlier in
the node list to one emitted later. -/
theorem c1_contains_characterization (filepath : String) (config : Config) (m : PyModule) :
    containsPairs (runVisitor filepath config m).edges
      = logPairs (runVisitor filepath config m).creation_log
    ∧ ∀ ed ∈ (runVisitor filepath config m).edges, ed.edge_type = "CONTAINS" →
        containsWitness (runVisitor filepath config m).nodes ed :=
  ⟨(runVisitor_inv filepath config m).log_ok,
   fun ed hed hty => ((runVisitor_inv filepath config m).edges_ok ed hed).2.2.1 hty⟩

/-- Witness for C1 (amended) on `class C: class D: pass`, whose one
CONTAINS edge is inspected concretely. -/
theorem c1_contains_characterization_witness :
    containsPairs (runVisitor "f.py" cfgW mCD).edges
      = logPairs (runVisitor "f.py" cfgW mCD).creation_log
    ∧ containsWitness (runVisitor "f.py" cfgW mCD).nodes
        ((runVisitor "f.py" cfgW mCD).edges.get ⟨0, by decide⟩) :=
  ⟨(c1_contains_characterization "f.py" cfgW mCD).1,
   (c1_contains_characterization "f.py" cfgW mCD).2 _ (List.get_mem _ _ _) (by decide)⟩

/-- Counterexample to C1 as stated: in `def f(x): pass` the parameter node
`x` is created while the function context is active, yet the traversal
emits no CONTAINS edge at all for it. -/
theorem c1_counterexample :
    ∃ l ∈ (runVisitor "f.py" cfgW mC1).creation_log,
      (l.class_ctx.isSome ∨ l.fn_ctx.isSome)
      ∧ ((runVisitor "f.py" cfgW mC1).edges.filter
          (fun ed => ed.edge_type == "CONTAINS" && ed.target_entity_id == l.entity_id)) = [] := by
  decide

/-- C2 (amended): every emitted edge is well-formed — endpoints non-blank;
CONTAINS and PARAMETER_OF endpoints are emitted node ids; a CALLS target is
explicitly `unresolved:`-tagged and its source is an emitted node id or the
synthesized module id; an EXTENDS target is a placeholder id generated from
the textual base-class name, which is neither unresolved-tagged nor
guaranteed to be in the node list. -/
theorem c2_edge_wellformedness (filepath : String) (config : Config) (m : PyModule) :
    ∀ ed ∈ (runVisitor filepath config m).edges,
      EdgeOK (mkCfg filepath config) (runVisitor filepath config m).nodes ed :=
  fun ed hed => (runVisitor_inv filepath config m).edges_ok ed hed

/-- Witness for C2 (amended) on the EXTENDS edge of `class A(B): pass`. -/
theorem c2_edge_wellformedness_witness :
    EdgeOK (mkCfg "f.py" cfgW) (runVisitor "f.py" cfgW mC2).nodes
      ((runVisitor "f.py" cfgW mC2).edges.get ⟨0, by decide⟩) :=
  c2_edge_wellformedness "f.py" cfgW mC2 _ (List.get_mem _ _ _)

/-- Counterexample to C2 as stated: the EXTENDS edge of `class A(B): pass`
has a target that is not tagged `unresolved:`, is not among the emitted
node ids, and is not the synthesized module id. -/
theorem c2_counterexample :
    ((runVisitor "f.py" cfgW mC2).edges.get ⟨0, by decide⟩).edge_type = "EXTENDS"
    ∧ ¬ (∃ r, ((runVisitor "f.py" cfgW mC2).edges.get ⟨0, by decide⟩).target_entity_id
          = "unresolved:" ++ r)
    ∧ ((runVisitor "f.py" cfgW mC2).edges.get ⟨0, by decide⟩).target_entity_id
        ∉ idsOf (runVisitor "f.py" cfgW mC2).nodes
    ∧ ((runVisitor "f.py" cfgW mC2).edges.get ⟨0, by decide⟩).target_entity_id
        ≠ moduleEntityId (mkCfg "f.py" cfgW) := by
  refine ⟨by decide, ?_, by decide, by decide⟩
  rintro ⟨r, hr⟩
  have ht := take_of_tagged hr
  revert ht
  decide

/-- C3 (amended): the callee-name extraction — a bare identifier yields
itself; an attribute access on a (non-blank) name or nested attribute chain
yields the fully expanded dotted chain; an attribute access whose base is
non-resolvable (for example a call) yields just the bare attribute name,
and a CALLS edge IS emitted with that name; only a call whose func is
itself directly a call yields no name; a subscripted call resolves through
its base.  When a truthy name is obtained, `visit_Call` emits exactly one
CALLS edge to the `unresolved:`-tagged target carrying the callee,
argument count and call-site location; when no name is obtained it emits
nothing. -/
theorem c3_callee_extraction (p2 : ParserCfg) (st : ParserState) (f inner v : Expr)
    (args cargs : ExprList) (kws ckws : KeywordList) (l1 l2 l3 : Loc)
    (id a b : String) (hid : id ≠ "") :
    extractCalleeName (.name id l1) = some id
    ∧ extractCalleeName (.attrAccess (.name id l1) a l2) = some (id ++ "." ++ a)
    ∧ extractCalleeName (.attrAccess (.attrAccess (.name id l1) a l2) b l3)
        = some (id ++ "." ++ a ++ "." ++ b)
    ∧ extractCalleeName (.attrAccess (.call inner cargs ckws l1) a l2) = some a
    ∧ extractCalleeName (.call inner cargs ckws l1) = none
    ∧ extractCalleeName (.subscript v inner l1) = extractCalleeName v
    ∧ (extractCalleeName f = none → visitCallEdgeStep p2 st f args kws l2 = st)
    ∧ (∀ c, extractCalleeName f = some c → c ≠ "" →
        visitCallEdgeStep p2 st f args kws l2
          = addEdge p2 st "CALLS"
              (if st.current_function_entity_id.getD "" = "" then moduleEntityId p2
               else st.current_function_entity_id.getD "")
              ("unresolved:" ++ c)
              [("callee", .ps c), ("argument_count", .pnat (args.len + kws.len)),
               ("start_line", .pnat l2.lineno), ("start_column", .pnat l2.col_offset)]) := by
  have hdot : (id ++ "." ++ a) ≠ "" := by
    apply append_ne_of_left_ne
    show id.data ++ (".").data ≠ []
    simp
  refine ⟨rfl, ?_, ?_, rfl, rfl, rfl, ?_, ?_⟩
  · simp [extractCalleeName, extractObjectName, hid]
  · simp [extractCalleeName, extractObjectName, hid, hdot]
  · intro h
    rw [visitCallEdgeStep, h]
    rfl
  · intro c hc hcne
    rw [visitCallEdgeStep, hc]
    simp only [Option.getD_some]
    rw [if_pos hcne]

/-- Witness for C3 (amended) at concrete expressions. -/
theorem c3_callee_extraction_witness :
    extractCalleeName (.attrAccess (.call (.name "g" Loc.z) .nil .nil Loc.z) "m" Loc.z)
      = some "m" :=
  (c3_callee_extraction (mkCfg "f.py" cfgW) initState (.name "foo" Loc.z) (.name "g" Loc.z)
    (.name "h2" Loc.z) .nil .nil .nil .nil Loc.z Loc.z Loc.z "o" "m" "q" (by decide)).2.2.2.1

/-- Counterexample to C3 as stated: for `foo().bar()` — an attribute call
whose base is itself a call, hence non-resolvable — a name IS obtained
(the bare `bar`) and a CALLS edge IS emitted for that call. -/
theorem c3_counterexample :
    extractCalleeName (.attrAccess (.call (.name "foo" Loc.z) .nil .nil Loc.z) "bar" Loc.z)
      = some "bar"
    ∧ ∃ ed ∈ (runVisitor "f.py" cfgW mC3).edges,
        ed.edge_type = "CALLS" ∧ ed.target_entity_id = "unresolved:bar" := by
  decide
